import Mathlib

/-!
Shallow embedding of the layered tile-grid compositing engine of
`src/src/phaser/TinyTownScene.ts` (first class definition in the file), the
layer tools of `src/unnamed/part_002`, and the layer-tree drag-and-drop
handlers of `src/src/main.ts`, together with proofs about the spec's claims.

Conventions used throughout:
* tile values and grid coordinates are `Int`, as in the source;
* a Phaser tilemap layer is modelled as a total function `Int → Int → Int`
  where the stored value `-1` means "no tile here"; `getTileAt` returns
  `null` both outside the layer and where the stored index is `-1`
  (Phaser's `GetTileAt` with `nonNull = false`), which the model renders as
  an `Option Int` that is `none` in exactly those situations;
* `putTileAt`/`removeTileAt` write inside the layer's bounds and are no-ops
  outside, `removeTileAt` storing `-1`.
-/

/-- Tile-value grid: a total function from coordinates to stored index. -/
abbrev Grid : Type := Int → Int → Int

/-- `getTileAt` on a `w×h` layer: `none` outside the layer or where the
stored index is `-1` (Phaser returns `null` for both). -/
def layerGet (w h : Int) (g : Grid) (x y : Int) : Option Int :=
  if 0 ≤ x ∧ x < w ∧ 0 ≤ y ∧ y < h then
    if g x y = -1 then none else some (g x y)
  else none

/-- `putTileAt` on a `w×h` layer: writes in bounds, no-op outside. -/
def putTile (w h : Int) (g : Grid) (x y v : Int) : Grid :=
  if 0 ≤ x ∧ x < w ∧ 0 ≤ y ∧ y < h then
    fun a b => if a = x ∧ b = y then v else g a b
  else g

/-- `CANVAS_WIDTH` of `TinyTownScene` (tiles). -/
def CANVAS_WIDTH : Int := 40

/-- `CANVAS_HEIGHT` of `TinyTownScene` (tiles). -/
def CANVAS_HEIGHT : Int := 25

/-- `getTileAt` on a full-canvas layer (grass layer, feature layer). -/
def layerGetC (g : Grid) (x y : Int) : Option Int :=
  layerGet CANVAS_WIDTH CANVAS_HEIGHT g x y

/-- `putTileAt` on a full-canvas layer. -/
def putTileC (g : Grid) (x y v : Int) : Grid :=
  putTile CANVAS_WIDTH CANVAS_HEIGHT g x y v

/-- The `TILE_PRIORITY` record of `TinyTownScene.ts`. -/
def TILE_PRIORITY_HOUSE : Int := 5

def TILE_PRIORITY_FENCE : Int := 4

def TILE_PRIORITY_PATH : Int := 3

def TILE_PRIORITY_DECOR : Int := 2

def TILE_PRIORITY_FOREST : Int := 1

def TILE_PRIORITY_GRASS : Int := 0

def TILE_PRIORITY_EMPTY : Int := -1

/-- `TinyTownScene.getTilePriority`, translated branch for branch. -/
def getTilePriority (tileIndex : Int) : Int :=
  if tileIndex = -1 then TILE_PRIORITY_EMPTY
  else if (48 ≤ tileIndex ∧ tileIndex ≤ 67) ∨ (72 ≤ tileIndex ∧ tileIndex ≤ 91) then
    TILE_PRIORITY_HOUSE
  else if tileIndex ∈ ([44, 45, 46, 56, 58, 68, 69, 70] : List Int) then
    TILE_PRIORITY_FENCE
  else if 39 ≤ tileIndex ∧ tileIndex ≤ 43 then
    TILE_PRIORITY_PATH
  else if tileIndex ∈ ([57, 83, 92, 93, 94, 95, 104, 105, 106, 107, 115, 116, 117, 118, 119,
      127, 128, 129, 130, 131] : List Int) then
    TILE_PRIORITY_DECOR
  else if (3 ≤ tileIndex ∧ tileIndex ≤ 23) ∨ (27 ≤ tileIndex ∧ tileIndex ≤ 35) then
    TILE_PRIORITY_FOREST
  else if 0 ≤ tileIndex ∧ tileIndex ≤ 2 then
    TILE_PRIORITY_GRASS
  else TILE_PRIORITY_GRASS

/-- One entry of `MULTI_TILE_NEIGHBOUR_RULES`: the neighbour at offset
`(dx, dy)` must hold tile `expected`. -/
structure NeighbourRule where
  dx : Int
  dy : Int
  expected : Int
deriving DecidableEq, Repr

/-- The tile-id lists of `MULTI_TILE_TREES` in `TinyTownScene.ts`. -/
def MULTI_TILE_TREES_single_green : List Int := [4, 16]

def MULTI_TILE_TREES_single_yellow : List Int := [3, 15]

def MULTI_TILE_TREES_stack1_green : List Int := [6, 8, 30, 32]

def MULTI_TILE_TREES_stack1_yellow : List Int := [9, 11, 33, 35]

def MULTI_TILE_TREES_stack2_green : List Int := [7, 19, 31, 18, 20]

def MULTI_TILE_TREES_stack2_yellow : List Int := [10, 22, 34, 21, 23]

/-- The `addRules` helper inside `buildNeighbourRules`: for every index `i`
of `tiles`, every other index `j` contributes the rule
`{dx: pos[j].x - pos[i].x, dy: pos[j].y - pos[i].y, expected: tiles[j]}`. -/
def addRules (tiles : List Int) (positions : List (Int × Int)) :
    List (Int × List NeighbourRule) :=
  (List.range tiles.length).map fun i =>
    (tiles.getD i 0,
      (List.range tiles.length).filterMap fun j =>
        if j = i then none
        else
          some ⟨(positions.getD j (0, 0)).1 - (positions.getD i (0, 0)).1,
                (positions.getD j (0, 0)).2 - (positions.getD i (0, 0)).2,
                tiles.getD j 0⟩)

/-- The positions for the 2×2 square shapes (`squarePos`). -/
def squarePos : List (Int × Int) := [(0, 0), (1, 0), (0, 1), (1, 1)]

/-- The positions for the 5-cell cross shapes (`crossPos`). -/
def crossPos : List (Int × Int) := [(0, 0), (0, 1), (0, 2), (-1, 1), (1, 1)]

/-- The positions for the 2-tall single trees. -/
def singlePos : List (Int × Int) := [(0, 0), (0, 1)]

/-- `MULTI_TILE_NEIGHBOUR_RULES = buildNeighbourRules()`, as an association
list; the tile-id sets of the `addRules` calls are pairwise disjoint, so the
successive `map.set` calls amount to concatenation. -/
def MULTI_TILE_NEIGHBOUR_RULES : List (Int × List NeighbourRule) :=
  addRules MULTI_TILE_TREES_single_green singlePos ++
  addRules MULTI_TILE_TREES_single_yellow singlePos ++
  addRules MULTI_TILE_TREES_stack1_green squarePos ++
  addRules MULTI_TILE_TREES_stack1_yellow squarePos ++
  addRules MULTI_TILE_TREES_stack2_green crossPos ++
  addRules MULTI_TILE_TREES_stack2_yellow crossPos

/-- `MULTI_TILE_NEIGHBOUR_RULES.get(i)`. -/
def rulesFor (i : Int) : Option (List NeighbourRule) :=
  (MULTI_TILE_NEIGHBOUR_RULES.find? fun p => p.1 = i).map fun p => p.2

/-- The rule table is closed: every expected neighbour is a rule-bearing
tile whose own rules are satisfied by the tiles of the same shape instance.
Concretely, for an entry `(i, R)` and a rule `r ∈ R`, `r.expected` is not
`-1`, the table has an entry for `r.expected`, and each of its rules `r'`
points, relative to the original cell, either back at the original cell
with expected tile `i`, or at the offset of some rule `r'' ∈ R` with the
same expected tile. -/
theorem rules_table_closed :
    ∀ p ∈ MULTI_TILE_NEIGHBOUR_RULES, ∀ r ∈ p.2,
      r.expected ≠ -1 ∧
      (∀ q ∈ MULTI_TILE_NEIGHBOUR_RULES, q.1 = r.expected →
        ∀ r' ∈ q.2,
          (r.dx + r'.dx = 0 ∧ r.dy + r'.dy = 0 ∧ r'.expected = p.1) ∨
          (∃ r'' ∈ p.2, r''.dx = r.dx + r'.dx ∧ r''.dy = r.dy + r'.dy ∧
            r''.expected = r'.expected)) := by
  decide

/-- Every key of the rule table has itself as key of some entry found by
`find?`; needed to turn `rulesFor` facts into table membership. -/
theorem rulesFor_mem {i : Int} {R : List NeighbourRule}
    (h : rulesFor i = some R) : (i, R) ∈ MULTI_TILE_NEIGHBOUR_RULES := by
  unfold rulesFor at h
  cases hfind : MULTI_TILE_NEIGHBOUR_RULES.find? fun p => p.1 = i with
  | none => simp [hfind] at h
  | some p =>
    have hp := List.find?_some hfind
    have hmem := List.mem_of_find?_eq_some hfind
    simp [hfind] at h
    have : p.1 = i := by simpa using hp
    have : p = (i, R) := by
      cases p with
      | mk a b => simp_all
    simpa [this] using hmem

/-- A named layer's rectangle in tile coordinates (the `bounds` records of
`namedLayers`). -/
structure Bounds where
  x : Int
  y : Int
  width : Int
  height : Int
deriving DecidableEq, Repr

/-- The repeated test `placeX >= b.x && placeX < b.x + b.width && placeY >=
b.y && placeY < b.y + b.height`. -/
def containsB (b : Bounds) (px py : Int) : Prop :=
  b.x ≤ px ∧ px < b.x + b.width ∧ b.y ≤ py ∧ py < b.y + b.height

instance (b : Bounds) (px py : Int) : Decidable (containsB b px py) := by
  unfold containsB; infer_instance

/-- One entry of `namedLayers`: name, bounds, and the layer's private
`width×height` tile buffer addressed in local coordinates. -/
structure NamedLayer where
  name : String
  bounds : Bounds
  tiles : Grid

/-- `info.layer.getTileAt(x - bounds.x, y - bounds.y)` for world
coordinates `(x, y)`; `none` exactly when the world point is outside the
layer's bounds or the stored local index is `-1`. -/
def namedGet (L : NamedLayer) (x y : Int) : Option Int :=
  layerGet L.bounds.width L.bounds.height L.tiles (x - L.bounds.x) (y - L.bounds.y)

/-- `info.layer.putTileAt(v, x - bounds.x, y - bounds.y)`. -/
def namedPut (L : NamedLayer) (x y v : Int) : NamedLayer :=
  { L with tiles := putTile L.bounds.width L.bounds.height L.tiles (x - L.bounds.x) (y - L.bounds.y) v }

/-- A region-tree node (`TreeStructure.ts` node as seen from `main.ts`:
a `Name` and a `Children` list; the stored rectangle plays no role in any
claim and is omitted). -/
inductive TreeNode where
  | node (name : String) (children : List TreeNode)

/-- The name of a tree node. -/
def TreeNode.name : TreeNode → String
  | .node n _ => n

/-- The children of a tree node. -/
def TreeNode.children : TreeNode → List TreeNode
  | .node _ cs => cs

/-- The root node `new Tree("Root", ...)` of `TinyTownScene`. -/
def rootTree : TreeNode := .node "Root" []

/-- The mutable state of `TinyTownScene` relevant to the claims: the grass
(base) layer, the feature layer, the ordered `namedLayers` map, the active
layer clamp, the two undo snapshots with the turn-start flag, the selection
state and the region tree.  (Rendering-only fields — cameras, highlight
graphics, the cached `selectedTiles` grids — are omitted; the cached
selection dimensions that feed the anchor test are kept.) -/
structure Scene where
  grass : Grid
  feature : Grid
  named : List NamedLayer
  activeLayerBounds : Option Bounds
  lastGrid : List (List Int)
  turnStartGrid : List (List Int)
  shouldSaveTurnStart : Bool
  selectionStart : Option (Int × Int)
  selectionEnd : Option (Int × Int)
  isSelecting : Bool
  selDimWidth : Int
  selDimHeight : Int
  layerTree : TreeNode

/-- `TinyTownScene.markNewTurn`. -/
def markNewTurn (s : Scene) : Scene :=
  { s with shouldSaveTurnStart := true }

/-- `TinyTownScene.clearSelection` (the graphics call is rendering only). -/
def clearSelection (s : Scene) : Scene :=
  { s with isSelecting := false,
           selectionStart := some (0, 0),
           selectionEnd := some (0, 0),
           selDimWidth := 0, selDimHeight := 0 }

/-- A generator's placement grid (`completedSection.grid : number[][]`). -/
abbrev Buffer : Type := List (List Int)

/-- `grid[y]?.[x]`: `none` models JavaScript `undefined`. -/
def bufGet (g : Buffer) (y x : Nat) : Option Int :=
  (g.get? y).bind fun row => row.get? x

/-- The integer interval `[lo, hi]` as a list, empty when `hi < lo`. -/
def intRange (lo hi : Int) : List Int :=
  (List.range (hi + 1 - lo).toNat).map fun (n : Nat) => lo + (n : Int)

theorem mem_intRange {lo hi a : Int} :
    a ∈ intRange lo hi ↔ lo ≤ a ∧ a ≤ hi := by
  unfold intRange
  simp only [List.mem_map, List.mem_range]
  constructor
  · rintro ⟨n, hn, rfl⟩
    omega
  · rintro ⟨h1, h2⟩
    exact ⟨(a - lo).toNat, by omega, by omega⟩

/-- `0 ≤ x < CANVAS_WIDTH ∧ 0 ≤ y < CANVAS_HEIGHT`: the bounds test of
`putFeatureAtSelection` and of the canvas layers. -/
def inCanvasP (x y : Int) : Prop :=
  0 ≤ x ∧ x < CANVAS_WIDTH ∧ 0 ≤ y ∧ y < CANVAS_HEIGHT

instance (x y : Int) : Decidable (inCanvasP x y) := by
  unfold inCanvasP; infer_instance

/-- The scan rectangle `(minX, minY, maxX, maxY)` of `pruneBrokenTrees`:
the whole canvas when no changed-cell hint is given (`changed` empty — the
source tests `changed && changed.length`), otherwise the bounding box of
the changed cells expanded by `EXPANSION = 2` and clamped to the canvas. -/
def pruneBox (changed : List (Int × Int)) : Int × Int × Int × Int :=
  match changed with
  | [] => (0, 0, CANVAS_WIDTH - 1, CANVAS_HEIGHT - 1)
  | c :: cs =>
    let xs := (c :: cs).map Prod.fst
    let ys := (c :: cs).map Prod.snd
    (max 0 (xs.foldl min c.1 - 2),
     max 0 (ys.foldl min c.2 - 2),
     min (CANVAS_WIDTH - 1) (xs.foldl max c.1 + 2),
     min (CANVAS_HEIGHT - 1) (ys.foldl max c.2 + 2))

/-- Membership in the scan rectangle of `pruneBrokenTrees`. -/
def inPruneBox (changed : List (Int × Int)) (x y : Int) : Prop :=
  (pruneBox changed).1 ≤ x ∧ x ≤ (pruneBox changed).2.2.1 ∧
  (pruneBox changed).2.1 ≤ y ∧ y ≤ (pruneBox changed).2.2.2

instance (changed : List (Int × Int)) (x y : Int) :
    Decidable (inPruneBox changed x y) := by
  unfold inPruneBox; infer_instance

theorem inPruneBox_inCanvas {changed : List (Int × Int)} {x y : Int}
    (h : inPruneBox changed x y) : inCanvasP x y := by
  unfold inPruneBox pruneBox at h
  unfold inCanvasP
  cases changed with
  | nil =>
    simp only [CANVAS_WIDTH, CANVAS_HEIGHT] at h ⊢
    omega
  | cons c cs =>
    simp only [CANVAS_WIDTH, CANVAS_HEIGHT] at h ⊢
    omega

/-- The body test of the scan loop of `pruneBrokenTrees`: the cell holds a
tile (`getTileAt` not `null`), the tile has neighbour rules, and
`rules.some(({dx,dy,expected}) => { const n = getTileAt(x+dx,y+dy); return
!n || n.index !== expected; })`. -/
def ruleViolated (feat : Grid) (x y : Int) (r : NeighbourRule) : Bool :=
  match layerGetC feat (x + r.dx) (y + r.dy) with
  | none => true
  | some w => decide (w ≠ r.expected)

/-- See the doc comment of `ruleViolated` above: together they translate the
scan-loop body of `pruneBrokenTrees`. -/
def cellBroken (feat : Grid) (x y : Int) : Bool :=
  match layerGetC feat x y with
  | none => false
  | some t =>
    match rulesFor t with
    | none => false
    | some rules => rules.any (ruleViolated feat x y)

/-- The cells of the scan rectangle, row by row as the nested loops visit
them. -/
def scanCells (changed : List (Int × Int)) : List (Int × Int) :=
  (intRange (pruneBox changed).2.1 (pruneBox changed).2.2.2).bind fun y =>
    (intRange (pruneBox changed).1 (pruneBox changed).2.2.1).map fun x => (x, y)

/-- The `toRemove` list collected by the scan of `pruneBrokenTrees`. -/
def toRemove (feat : Grid) (changed : List (Int × Int)) : List (Int × Int) :=
  (scanCells changed).filter fun c => cellBroken feat c.1 c.2

/-- `TinyTownScene.pruneBrokenTrees` acting on the feature layer: scan the
rectangle, collect the broken cells, then clear each of them with
`putTileAt(-1, x, y)`.  A `changed` hint that is `undefined` in the source
behaves like the empty list (both fail `changed && changed.length`). -/
def pruneBrokenTrees (feat : Grid) (changed : List (Int × Int)) : Grid :=
  (toRemove feat changed).foldl (fun g c => putTileC g c.1 c.2 (-1)) feat

theorem putTileC_eval (g : Grid) (x y v a b : Int) :
    putTileC g x y v a b =
      if (a = x ∧ b = y) ∧ inCanvasP x y then v else g a b := by
  unfold putTileC putTile inCanvasP
  by_cases h : 0 ≤ x ∧ x < CANVAS_WIDTH ∧ 0 ≤ y ∧ y < CANVAS_HEIGHT
  · simp only [if_pos h]
    by_cases hab : a = x ∧ b = y
    · simp [hab, h]
    · simp [hab]
  · simp only [if_neg h]
    have : ¬((a = x ∧ b = y) ∧ 0 ≤ x ∧ x < CANVAS_WIDTH ∧ 0 ≤ y ∧ y < CANVAS_HEIGHT) := by
      tauto
    simp [this]

theorem foldl_putNeg1_eval (l : List (Int × Int)) (g : Grid) (a b : Int) :
    (l.foldl (fun g c => putTileC g c.1 c.2 (-1)) g) a b =
      if (a, b) ∈ l ∧ inCanvasP a b then -1 else g a b := by
  induction l generalizing g with
  | nil => simp
  | cons c cs ih =>
    simp only [List.foldl_cons, ih, List.mem_cons]
    by_cases hmem : (a, b) ∈ cs ∧ inCanvasP a b
    · simp [hmem]
    · rw [if_neg hmem]
      by_cases hc : (a, b) = c ∧ inCanvasP a b
      · have hax : a = c.1 ∧ b = c.2 := by
          obtain ⟨h1, h2⟩ := hc; cases c; cases h1; exact ⟨rfl, rfl⟩
        rw [if_pos ⟨Or.inl hc.1, hc.2⟩, putTileC_eval]
        have : inCanvasP c.1 c.2 := by
          obtain ⟨h1, h2⟩ := hc; cases h1; exact h2
        simp [hax, this]
      · have hnot : ¬(((a, b) = c ∨ (a, b) ∈ cs) ∧ inCanvasP a b) := by tauto
        rw [if_neg hnot, putTileC_eval]
        have : ¬((a = c.1 ∧ b = c.2) ∧ inCanvasP c.1 c.2) := by
          intro ⟨⟨h1, h2⟩, hcv⟩
          apply hc
          constructor
          · cases c; simp_all
          · cases c; simp_all
        simp [this]

theorem mem_scanCells {changed : List (Int × Int)} {x y : Int} :
    (x, y) ∈ scanCells changed ↔ inPruneBox changed x y := by
  unfold scanCells inPruneBox
  simp only [List.mem_bind, List.mem_map, mem_intRange, Prod.mk.injEq]
  constructor
  · rintro ⟨y0, hy, x0, hx, rfl, rfl⟩
    exact ⟨hx.1, hx.2, hy.1, hy.2⟩
  · rintro ⟨h1, h2, h3, h4⟩
    exact ⟨y, ⟨h3, h4⟩, x, ⟨h1, h2⟩, rfl, rfl⟩

/-- Pointwise characterisation of `pruneBrokenTrees`: a cell is cleared to
`-1` exactly when it lies in the scan rectangle and was broken in the
pre-scan grid; every other cell keeps its value. -/
theorem prune_eval (feat : Grid) (changed : List (Int × Int)) (x y : Int) :
    pruneBrokenTrees feat changed x y =
      if inPruneBox changed x y ∧ cellBroken feat x y = true then -1
      else feat x y := by
  unfold pruneBrokenTrees
  rw [foldl_putNeg1_eval]
  unfold toRemove
  by_cases h : inPruneBox changed x y ∧ cellBroken feat x y = true
  · rw [if_pos h, if_pos]
    refine ⟨List.mem_filter.mpr ⟨mem_scanCells.mpr h.1, h.2⟩, inPruneBox_inCanvas h.1⟩
  · rw [if_neg h, if_neg]
    intro ⟨hmem, _⟩
    obtain ⟨hscan, hbrk⟩ := List.mem_filter.mp hmem
    exact h ⟨mem_scanCells.mp hscan, hbrk⟩


theorem layerGetC_some_iff {g : Grid} {x y t : Int} :
    layerGetC g x y = some t ↔ inCanvasP x y ∧ g x y = t ∧ t ≠ -1 := by
  unfold layerGetC layerGet inCanvasP
  by_cases h : 0 ≤ x ∧ x < CANVAS_WIDTH ∧ 0 ≤ y ∧ y < CANVAS_HEIGHT
  · rw [if_pos h]
    by_cases hv : g x y = -1
    · rw [if_pos hv]
      constructor
      · intro hc; cases hc
      · rintro ⟨_, h1, hne⟩
        exact absurd (h1 ▸ hv) hne
    · rw [if_neg hv]
      simp only [Option.some.injEq]
      constructor
      · intro h1; exact ⟨h, h1, fun hc => hv (h1 ▸ hc)⟩
      · rintro ⟨_, h1, _⟩; exact h1
  · rw [if_neg h]
    constructor
    · intro hc; cases hc
    · rintro ⟨hc, _, _⟩; exact absurd hc h

theorem layerGetC_congr {g f : Grid} {x y : Int} (h : g x y = f x y) :
    layerGetC g x y = layerGetC f x y := by
  unfold layerGetC layerGet
  rw [h]

theorem ruleViolated_false_iff {feat : Grid} {x y : Int} {r : NeighbourRule} :
    ruleViolated feat x y r = false ↔
      layerGetC feat (x + r.dx) (y + r.dy) = some r.expected := by
  unfold ruleViolated
  cases h : layerGetC feat (x + r.dx) (y + r.dy) with
  | none => simp
  | some w => simp

theorem cellBroken_elim {feat : Grid} {x y t : Int} {R : List NeighbourRule}
    (ht : layerGetC feat x y = some t) (hR : rulesFor t = some R) :
    cellBroken feat x y = R.any (ruleViolated feat x y) := by
  simp only [cellBroken, ht, hR]

/-- Unfolding of a false `cellBroken`: if the cell holds a rule-bearing
tile and is not broken, every rule's neighbour holds the expected tile. -/
theorem cellBroken_false_elim {feat : Grid} {x y t : Int} {R : List NeighbourRule}
    (hfalse : cellBroken feat x y = false)
    (ht : layerGetC feat x y = some t) (hR : rulesFor t = some R) :
    ∀ r ∈ R, layerGetC feat (x + r.dx) (y + r.dy) = some r.expected := by
  intro r hr
  rw [cellBroken_elim ht hR, List.any_eq_false] at hfalse
  have h1 := hfalse r hr
  rw [Bool.not_eq_true] at h1
  exact ruleViolated_false_iff.mp h1

/-- Unfolding of a true `cellBroken`. -/
theorem cellBroken_true_elim {feat : Grid} {x y : Int}
    (htrue : cellBroken feat x y = true) :
    ∃ t, layerGetC feat x y = some t ∧
      ∃ R, rulesFor t = some R ∧
        ∃ r ∈ R, layerGetC feat (x + r.dx) (y + r.dy) ≠ some r.expected := by
  cases ht : layerGetC feat x y with
  | none =>
    have hfix : cellBroken feat x y = false := by simp only [cellBroken, ht]
    rw [hfix] at htrue; cases htrue
  | some t =>
    cases hR : rulesFor t with
    | none =>
      have hfix : cellBroken feat x y = false := by simp only [cellBroken, ht, hR]
      rw [hfix] at htrue; cases htrue
    | some R =>
      rw [cellBroken_elim ht hR, List.any_eq_true] at htrue
      obtain ⟨r, hr, hviol⟩ := htrue
      refine ⟨t, rfl, R, hR, r, hr, ?_⟩
      intro hc
      rw [← Bool.not_eq_false, ruleViolated_false_iff] at hviol
      exact hviol hc

/-- The complete-graph structure of the rule table in action: the
rule-neighbours of an unbroken rule-bearing cell are themselves unbroken. -/
theorem neighbour_not_broken {feat : Grid} {x y t : Int} {R : List NeighbourRule}
    (hfalse : cellBroken feat x y = false)
    (ht : layerGetC feat x y = some t) (hR : rulesFor t = some R)
    {r : NeighbourRule} (hr : r ∈ R) :
    cellBroken feat (x + r.dx) (y + r.dy) = false := by
  have hnbr : layerGetC feat (x + r.dx) (y + r.dy) = some r.expected :=
    cellBroken_false_elim hfalse ht hR r hr
  cases hR' : rulesFor r.expected with
  | none => simp only [cellBroken, hnbr, hR']
  | some R' =>
    rw [cellBroken_elim hnbr hR', List.any_eq_false]
    intro r' hr'
    rw [Bool.not_eq_true, ruleViolated_false_iff]
    have hclosed := rules_table_closed (t, R) (rulesFor_mem hR) r hr
    have hq := hclosed.2 (r.expected, R') (rulesFor_mem hR') rfl r' hr'
    rcases hq with ⟨hdx, hdy, hexp⟩ | ⟨r'', hr'', hdx, hdy, hexp⟩
    · have hcx : x + r.dx + r'.dx = x := by omega
      have hcy : y + r.dy + r'.dy = y := by omega
      rw [hcx, hcy, ht, hexp]
    · have hcx : x + r.dx + r'.dx = x + r''.dx := by omega
      have hcy : y + r.dy + r'.dy = y + r''.dy := by omega
      rw [hcx, hcy, cellBroken_false_elim hfalse ht hR r'' hr'', hexp]

/-- C4: after `pruneBrokenTrees(changedCells)` runs, every cell inside the
scanned bounding box (union of changed cells expanded by a margin of 2, or
the whole grid when no hint is given) that held a rule-bearing tile one of
whose rules' neighbours at `(x+dx, y+dy)` was missing or did not hold the
expected tile id, is cleared to `-1`. -/
theorem claim4_prune_postcondition (feat : Grid) (changed : List (Int × Int))
    (x y t : Int) (R : List NeighbourRule)
    (hbox : inPruneBox changed x y)
    (ht : layerGetC feat x y = some t) (hR : rulesFor t = some R)
    (hviol : ∃ r ∈ R, layerGetC feat (x + r.dx) (y + r.dy) ≠ some r.expected) :
    pruneBrokenTrees feat changed x y = -1 := by
  have hbrk : cellBroken feat x y = true := by
    rw [cellBroken_elim ht hR, List.any_eq_true]
    obtain ⟨r, hr, hv⟩ := hviol
    refine ⟨r, hr, ?_⟩
    by_contra hc
    rw [Bool.not_eq_true, ruleViolated_false_iff] at hc
    exact hv hc
  rw [prune_eval, if_pos ⟨hbox, hbrk⟩]

/-- The 2-cell green tree of the concrete spec scenario: tile `4` at
`(5,5)` over tile `16` at `(5,6)` on an otherwise empty feature layer. -/
def treeFeature : Grid := fun x y =>
  if x = 5 ∧ y = 5 then 4 else if x = 5 ∧ y = 6 then 16 else -1

/-- The feature layer after directly deleting the tile at `(5,6)`. -/
def treeFeatureDeleted : Grid := putTileC treeFeature 5 6 (-1)

/-- Witness for C4: with the 2-cell tree at `(5,5)-(5,6)` and the tile at
`(5,6)` deleted, pruning with changed-cell hint `[(5,6)]` also clears the
tile at `(5,5)`. -/
theorem claim4_witness :
    pruneBrokenTrees treeFeatureDeleted [(5, 6)] 5 5 = -1 :=
  claim4_prune_postcondition treeFeatureDeleted [(5, 6)] 5 5 4 [⟨0, 1, 16⟩]
    (by decide) (by decide) (by decide)
    ⟨⟨0, 1, 16⟩, by decide, by decide⟩

/-- C5: pruning is idempotent — running `pruneBrokenTrees` twice in a row
with the same changed-cells hint leaves every cell as after one run. -/
theorem claim5_prune_idempotent (feat : Grid) (changed : List (Int × Int))
    (x y : Int) :
    pruneBrokenTrees (pruneBrokenTrees feat changed) changed x y =
      pruneBrokenTrees feat changed x y := by
  rw [prune_eval (pruneBrokenTrees feat changed) changed x y]
  by_cases h : inPruneBox changed x y ∧
      cellBroken (pruneBrokenTrees feat changed) x y = true
  · exfalso
    obtain ⟨hbox, hbrk⟩ := h
    obtain ⟨t, ht, R, hR, r, hr, hviol⟩ := cellBroken_true_elim hbrk
    have hvt := layerGetC_some_iff.mp ht
    have hfeat_not_broken : cellBroken feat x y = false := by
      by_contra hb
      rw [Bool.not_eq_false] at hb
      have : pruneBrokenTrees feat changed x y = -1 := by
        rw [prune_eval, if_pos ⟨hbox, hb⟩]
      exact hvt.2.2 (hvt.2.1 ▸ this)
    have hsame : pruneBrokenTrees feat changed x y = feat x y := by
      rw [prune_eval, if_neg]
      intro hcontra
      rw [hcontra.2] at hfeat_not_broken
      cases hfeat_not_broken
    have htf : layerGetC feat x y = some t := by
      rw [← layerGetC_congr hsame]
      exact ht
    have hnbr : layerGetC feat (x + r.dx) (y + r.dy) = some r.expected :=
      cellBroken_false_elim hfeat_not_broken htf hR r hr
    have hnbr_not_broken : cellBroken feat (x + r.dx) (y + r.dy) = false :=
      neighbour_not_broken hfeat_not_broken htf hR hr
    have hnbr_same : pruneBrokenTrees feat changed (x + r.dx) (y + r.dy) =
        feat (x + r.dx) (y + r.dy) := by
      rw [prune_eval, if_neg]
      intro hcontra
      rw [hcontra.2] at hnbr_not_broken
      cases hnbr_not_broken
    exact hviol (by rw [layerGetC_congr hnbr_same, hnbr])
  · rw [if_neg h]

/-- `pruneBrokenTrees` as a scene operation: only the feature layer field
is read or written (the method only touches `this.featureLayer`). -/
def pruneBrokenTreesScene (s : Scene) (changed : List (Int × Int)) : Scene :=
  { s with feature := pruneBrokenTrees s.feature changed }

/-- C10: pruning only mutates the feature layer — the base (grass) layer
and every named layer's buffer are untouched, and the only feature-layer
writes store `-1`. -/
theorem claim10_prune_frame (s : Scene) (changed : List (Int × Int)) :
    (pruneBrokenTreesScene s changed).grass = s.grass ∧
    (pruneBrokenTreesScene s changed).named = s.named ∧
    ∀ x y, (pruneBrokenTreesScene s changed).feature x y = s.feature x y ∨
      (pruneBrokenTreesScene s changed).feature x y = -1 := by
  refine ⟨rfl, rfl, fun x y => ?_⟩
  show pruneBrokenTrees s.feature changed x y = s.feature x y ∨
    pruneBrokenTrees s.feature changed x y = -1
  rw [prune_eval]
  by_cases h : inPruneBox changed x y ∧ cellBroken s.feature x y = true
  · right; rw [if_pos h]
  · left; rw [if_neg h]

/-- The per-cell value of `GetFlattenedTileMap` at an in-canvas coordinate:
the build initialises with `-1`, copies every grass tile that is not `-1`,
overwrites with every feature tile that is not `-1`, and finally overwrites
with every named layer's tiles that are not `-1`, later layers winning (the
build's named-layer loop skips world coordinates outside the canvas, which
cannot happen at the in-canvas points this function is evaluated at). -/
def flatCell (s : Scene) (x y : Int) : Int :=
  s.named.foldl
    (fun acc L =>
      match namedGet L x y with
      | some v => v
      | none => acc)
    (match layerGetC s.feature x y with
     | some v => v
     | none =>
       match layerGetC s.grass x y with
       | some g => g
       | none => -1)

/-- `TinyTownScene.GetFlattenedTileMap`: the `CANVAS_HEIGHT × CANVAS_WIDTH`
array whose `[y][x]` entry is `flatCell s x y`. -/
def GetFlattenedTileMap (s : Scene) : Buffer :=
  (List.range 25).map fun (y : Nat) =>
    (List.range 40).map fun (x : Nat) => flatCell s (x : Int) (y : Int)

/-- The per-cell value of the `LastData.grid` snapshot built at the start
of a non-undo placement call: initialised to `-1`, overwritten by every
feature tile that is not `-1` (the build keeps `-2` values: it tests
`tile.index !== -1`), then overwritten by every named layer tile that is
`>= 0` (the build tests `t.index >= 0`), later layers winning.  The
named-layer pass of the build writes `LastData.grid[worldY][worldX]`
without a bounds check, so this pointwise rendition (like the running
program) presumes named-layer bounds inside the canvas. -/
def snapshotCell (s : Scene) (x y : Int) : Int :=
  s.named.foldl
    (fun acc L =>
      match namedGet L x y with
      | some v => if 0 ≤ v then v else acc
      | none => acc)
    (match layerGetC s.feature x y with
     | some v => v
     | none => -1)

/-- The full `LastData.grid` snapshot as a `25 × 40` array. -/
def snapshotGrid (s : Scene) : Buffer :=
  (List.range 25).map fun (y : Nat) =>
    (List.range 40).map fun (x : Nat) => snapshotCell s (x : Int) (y : Int)

/-- Keep an optional tile only when its index is `>= 0` (the repeated
`tile && tile.index >= 0` test). -/
def posHit (o : Option Int) : Option Int :=
  match o with
  | some v => if 0 ≤ v then some v else none
  | none => none

/-- The named-layer pass of `getTileAtGlobal`: first layer containing the
point whose tile there has index `>= 0`. -/
def namedTopHit : List NamedLayer → Int → Int → Option Int
  | [], _, _ => none
  | L :: rest, x, y =>
    match posHit (namedGet L x y) with
    | some v => some v
    | none => namedTopHit rest x y

/-- `TinyTownScene.getTileAtGlobal`: combined read — named layers in
insertion order, then the feature layer, then the grass layer, else `-1`;
out-of-canvas coordinates give `-1`. -/
def getTileAtGlobal (s : Scene) (x y : Int) : Int :=
  if ¬inCanvasP x y then -1
  else
    match namedTopHit s.named x y with
    | some v => v
    | none =>
      match posHit (layerGetC s.feature x y) with
      | some v => v
      | none =>
        match posHit (layerGetC s.grass x y) with
        | some v => v
        | none => -1

/-- The `allowOverwriting` debug flag: `private readonly allowOverwriting:
boolean = true`. -/
def allowOverwriting : Bool := true

/-- The `AUTOLAYER` feature flag: `private readonly AUTOLAYER = false`. -/
def AUTOLAYER : Bool := false

/-- The explicit-clear branch's named-layer loop (and, identically, the
undo fallback's `removeTileAt` loop): store `-1` at the cell's local
position in every named layer whose bounds contain the cell. -/
def clearNamedAll (named : List NamedLayer) (px py : Int) : List NamedLayer :=
  named.map fun L => if containsB L.bounds px py then namedPut L px py (-1) else L

/-- The active-layer branch of the placement loop: find the first named
layer whose bounds equal the active-layer bounds and overwrite its local
cell (`removeTileAt` immediately followed by `putTileAt` is a single
store); `none` when no layer has exactly those bounds. -/
def placeInActive (named : List NamedLayer) (b : Bounds) (px py v : Int) :
    Option (List NamedLayer) :=
  match named with
  | [] => none
  | L :: rest =>
    if L.bounds = b then some (namedPut L px py v :: rest)
    else (placeInActive rest b px py v).map fun rest' => L :: rest'

/-- Outcome of the named-layer branch of the placement loop. -/
inductive NamedOutcome where
  | placed (named' : List NamedLayer)
  | blocked
  | nohit

/-- The named-layer branch of the placement loop: scan `namedLayers` in
order; in the first layer containing the cell where `existing === -1 ||
allowOverwriting` holds, either write (when `priority(new) >= priority(existing)
|| undoing`) or report a priority block; if no layer handles the cell,
report a miss so the caller falls back to the feature layer. -/
def consOutcome (L : NamedLayer) : NamedOutcome → NamedOutcome
  | .placed rest' => .placed (L :: rest')
  | .blocked => .blocked
  | .nohit => .nohit

/-- See `consOutcome` above: an untouched layer is re-consed onto the
outcome of scanning the remaining layers. -/
def placeInNamed (undoing : Bool) (named : List NamedLayer) (px py v : Int) :
    NamedOutcome :=
  match named with
  | [] => .nohit
  | L :: rest =>
    -- `existingTileIndex` of the source is written out at both its uses
    if containsB L.bounds px py then
      if (namedGet L px py).getD (-1) = -1 ∨ allowOverwriting = true then
        if getTilePriority v ≥ getTilePriority ((namedGet L px py).getD (-1)) ∨
            undoing = true then
          .placed (namedPut L px py v :: rest)
        else .blocked
      else consOutcome L (placeInNamed undoing rest px py v)
    else consOutcome L (placeInNamed undoing rest px py v)

/-- The running state of the placement loop of `putFeatureAtSelection`:
the scene plus the `changed`, `tilesToPlace` and `tilesSkipped`
accumulators. -/
structure PlaceState where
  scene : Scene
  changed : List (Int × Int)
  tilesToPlace : Nat
  tilesSkipped : Nat

/-- The `tilesToPlace` count of the placement loop: `newTileIndex >= 0 ||
(undoing && newTileIndex === -1)`. -/
def countTile (undoing : Bool) (st : PlaceState) (newTileIndex : Int) : PlaceState :=
  if 0 ≤ newTileIndex ∨ (undoing = true ∧ newTileIndex = -1) then
    { st with tilesToPlace := st.tilesToPlace + 1 }
  else st

/-- The explicit-clear branch: clear the feature layer cell, clear the
cell in every named layer containing it, and record the cell changed. -/
def clearResult (st1 : PlaceState) (placeX placeY : Int) : PlaceState :=
  { st1 with
    scene := { st1.scene with
      feature := putTileC st1.scene.feature placeX placeY (-1),
      named := clearNamedAll st1.scene.named placeX placeY },
    changed := st1.changed ++ [(placeX, placeY)] }

/-- A write into a named layer (active-layer or named-layer branch): the
updated `namedLayers` plus the cell recorded as changed. -/
def placedResult (st1 : PlaceState) (named' : List NamedLayer)
    (placeX placeY : Int) : PlaceState :=
  { st1 with scene := { st1.scene with named := named' },
             changed := st1.changed ++ [(placeX, placeY)] }

/-- A priority block: `tilesSkipped++`, nothing else. -/
def skippedResult (st1 : PlaceState) : PlaceState :=
  { st1 with tilesSkipped := st1.tilesSkipped + 1 }

/-- The guard of the active-layer branch: the clamp is set, the value is a
real tile, the cell lies in the clamp, and some named layer has exactly the
clamp's bounds (in which case `placeInActive` yields the updated list). -/
def activeResOf (s : Scene) (placeX placeY v : Int) : Option (List NamedLayer) :=
  match s.activeLayerBounds with
  | some b =>
    if 0 ≤ v ∧ containsB b placeX placeY then placeInActive s.named b placeX placeY v
    else none
  | none => none

/-- The feature-layer fallback write: store the tile in the feature layer
and, when undoing, clear the cell in every overlapping named layer. -/
def fallbackWrite (undoing : Bool) (placeX placeY : Int) (st1 : PlaceState)
    (newTileIndex : Int) : PlaceState :=
  { st1 with
    scene := { st1.scene with
      feature := putTileC st1.scene.feature placeX placeY newTileIndex,
      named := if undoing = true then clearNamedAll st1.scene.named placeX placeY
        else st1.scene.named },
    changed := st1.changed ++ [(placeX, placeY)] }

/-- The feature-layer fallback: read the existing tile from the combined
`GetFlattenedTileMap` view and arbitrate by priority (or unconditionally
under `undoing`); the `allowOverwriting = false` alternative of the source
is carried along although the flag is hard-coded `true`. -/
def fallbackPlace (undoing : Bool) (placeX placeY : Int)
    (st1 : PlaceState) (newTileIndex : Int) : PlaceState :=
  if allowOverwriting = true then
    if getTilePriority newTileIndex ≥
        getTilePriority ((bufGet (GetFlattenedTileMap st1.scene) placeY.toNat
          placeX.toNat).getD (-1)) ∨ undoing = true then
      fallbackWrite undoing placeX placeY st1 newTileIndex
    else skippedResult st1
  else
    if (bufGet (GetFlattenedTileMap st1.scene) placeY.toNat placeX.toNat).getD (-1) = -1 then
      fallbackWrite undoing placeX placeY st1 newTileIndex
    else skippedResult st1

/-- The placement-proper part of the loop body, after the skip checks and
the `tilesToPlace` count: explicit-clear branch, active-layer branch,
named-layer branch (only for `newTileIndex >= 0`), feature-layer
fallback. -/
def processCellPlace (acceptneg undoing : Bool) (placeX placeY : Int)
    (st1 : PlaceState) (newTileIndex : Int) : PlaceState :=
  if acceptneg = true ∧ newTileIndex = -2 then clearResult st1 placeX placeY
  else
    match activeResOf st1.scene placeX placeY newTileIndex with
    | some named' => placedResult st1 named' placeX placeY
    | none =>
      match (if 0 ≤ newTileIndex then
          placeInNamed undoing st1.scene.named placeX placeY newTileIndex
        else NamedOutcome.nohit) with
      | .placed named' => placedResult st1 named' placeX placeY
      | .blocked => skippedResult st1
      | .nohit => fallbackPlace undoing placeX placeY st1 newTileIndex

/-- The loop body for a buffer cell whose value is defined: skip empty
tiles outside undo mode, count, then place. -/
def processCellVal (acceptneg undoing : Bool) (placeX placeY : Int)
    (st : PlaceState) (newTileIndex : Int) : PlaceState :=
  if newTileIndex = -1 ∧ undoing = false then st
  else processCellPlace acceptneg undoing placeX placeY
    (countTile undoing st newTileIndex) newTileIndex

/-- The body of the placement double loop of `putFeatureAtSelection` for
the buffer cell `p = (yOffset, xOffset)`, translated step for step:
bounds check, `undefined` check, then `processCellVal` above. -/
def processCell (acceptneg undoing : Bool) (startX startY : Int) (grid : Buffer)
    (st : PlaceState) (p : Nat × Nat) : PlaceState :=
  if ¬inCanvasP (startX + (p.2 : Int)) (startY + (p.1 : Int)) then st
  else
    match bufGet grid p.1 p.2 with
    | none => st
    | some newTileIndex =>
      processCellVal acceptneg undoing (startX + (p.2 : Int)) (startY + (p.1 : Int))
        st newTileIndex

/-- The iteration order of the placement double loop: `yOffset` outer,
`xOffset` inner. -/
def cellOffsets (gridHeight gridWidth : Nat) : List (Nat × Nat) :=
  (List.range gridHeight).bind fun y => (List.range gridWidth).map fun x => (y, x)

/-- The anchor resolution at the top of `putFeatureAtSelection`: without
`worldOverride`, a live selection anchors at its top-left corner, otherwise
any stale selection state is cleared and the anchor stays `(0,0)`. -/
def resolveAnchor (s : Scene) (worldOverride : Bool) : Scene × Int × Int :=
  if worldOverride = false then
    match s.selectionStart, s.selectionEnd with
    | some st, some en =>
      if st.1 ≠ en.1 ∨ st.2 ≠ en.2 ∨ s.isSelecting = true ∨ s.selDimWidth > 0 then
        (s, min st.1 en.1, min st.2 en.2)
      else (clearSelection s, 0, 0)
    | _, _ => (clearSelection s, 0, 0)
  else (s, 0, 0)

/-- The snapshot phase of `putFeatureAtSelection`: for a non-`acceptneg`
call, rebuild `LastData.grid` from the live layers and, if this is the
first call of the turn (`shouldSaveTurnStart`), deep-copy it into
`TurnStartData.grid` and clear the flag. -/
def snapshotPhase (s : Scene) (acceptneg : Bool) : Scene :=
  if acceptneg = false then
    if s.shouldSaveTurnStart = true then
      { s with lastGrid := snapshotGrid s, turnStartGrid := snapshotGrid s,
               shouldSaveTurnStart := false }
    else { s with lastGrid := snapshotGrid s }
  else s

/-- The `{placed, skipped, total}` record returned by
`putFeatureAtSelection`. -/
structure PlaceResult where
  placed : Nat
  skipped : Nat
  total : Nat
deriving DecidableEq, Repr

/-- `TinyTownScene.putFeatureAtSelection(generatedData, worldOverride,
acceptneg, undoing)`: anchor resolution, snapshot phase, empty-buffer early
return, the per-cell placement loop, final `pruneBrokenTrees(changed)`, and
the result counts `{placed: changed.length, skipped, total}`.  The
`AUTOLAYER` block between pruning and the return is skipped because the
flag is the hard-coded constant `false`. -/
def placementRun (s : Scene) (grid : Buffer)
    (worldOverride acceptneg undoing : Bool) : PlaceState :=
  (cellOffsets grid.length
      (if grid.length > 0 then ((grid.head?.map List.length).getD 0) else 0)).foldl
    (processCell acceptneg undoing (resolveAnchor s worldOverride).2.1
      (resolveAnchor s worldOverride).2.2 grid)
    ⟨snapshotPhase (resolveAnchor s worldOverride).1 acceptneg, [], 0, 0⟩

/-- See `placementRun` above for the loop itself (anchored at the resolved
anchor, starting from the scene left by the snapshot phase). -/
def putFeatureAtSelection (s : Scene) (grid : Buffer)
    (worldOverride acceptneg undoing : Bool) : Scene × PlaceResult :=
  if (if grid.length > 0 then ((grid.head?.map List.length).getD 0) else 0) = 0 ∨
      grid.length = 0 then
    (snapshotPhase (resolveAnchor s worldOverride).1 acceptneg, ⟨0, 0, 0⟩)
  else
    (pruneBrokenTreesScene (placementRun s grid worldOverride acceptneg undoing).scene
       (placementRun s grid worldOverride acceptneg undoing).changed,
     ⟨(placementRun s grid worldOverride acceptneg undoing).changed.length,
      (placementRun s grid worldOverride acceptneg undoing).tilesSkipped,
      (placementRun s grid worldOverride acceptneg undoing).tilesToPlace⟩)

/-- `FullUndo.toolCall` of `src/src/phaser/tools/simpleTools/undo.ts`:
error out (scene untouched, second component `false`) when
`TurnStartData.grid.length === 0`; otherwise re-place `TurnStartData` with
`worldOverride`, `acceptneg` and `undoing` all `true` and then
`markNewTurn()`. -/
def fullUndoToolCall (s : Scene) : Scene × Bool :=
  if s.turnStartGrid.length = 0 then (s, false)
  else (markNewTurn (putFeatureAtSelection s s.turnStartGrid true true true).1, true)

/-- The cell list of the load loop of `loadMapFromJSON`: rows up to
`min(mapData.length, CANVAS_HEIGHT)`, columns up to
`min(mapData[y].length, CANVAS_WIDTH)`. -/
def loadCells (mapData : Buffer) : List (Nat × Nat) :=
  (List.range (min mapData.length 25)).bind fun y =>
    (List.range (min (mapData.getD y []).length 40)).map fun x => (y, x)

/-- `TinyTownScene.loadMapFromJSON`: clear every feature-layer tile,
destroy all named layers, reset the region tree and the selection, then
write each loaded value `> 3` into the feature layer and each value in
`[0, 3)` into the grass layer (all other values are written nowhere). -/
def loadMapFromJSON (s : Scene) (mapData : Buffer) : Scene :=
  let s1 : Scene :=
    { s with feature := fun x y => if inCanvasP x y then -1 else s.feature x y,
             named := [],
             layerTree := rootTree }
  let s2 := clearSelection s1
  (loadCells mapData).foldl
    (fun t p =>
      let tileId := (mapData.getD p.1 []).getD p.2 0
      if tileId > 3 then
        { t with feature := putTileC t.feature (p.2 : Int) (p.1 : Int) tileId }
      else if 0 ≤ tileId ∧ tileId < 3 then
        { t with grass := putTileC t.grass (p.2 : Int) (p.1 : Int) tileId }
      else t)
    s2

/-- A scene with the given feature layer over a fully grass-0 base, no
named layers, no active layer, empty snapshots and no selection. -/
def baseScene (feat : Grid) : Scene :=
  { grass := fun _ _ => 0
    feature := feat
    named := []
    activeLayerBounds := none
    lastGrid := []
    turnStartGrid := []
    shouldSaveTurnStart := true
    selectionStart := none
    selectionEnd := none
    isSelecting := false
    selDimWidth := 0
    selDimHeight := 0
    layerTree := rootTree }

/-- Counterexample to C6 as stated: a placement call with
`acceptExplicitClear` unset whose buffer holds `-2` falls through to the
feature-layer fallback (the clear branch requires `acceptneg`), where
`getTilePriority(-2) = 0 ≥ 0 = getTilePriority(grass)` lets the raw `-2`
be stored in the feature layer. -/
theorem claim6_counterexample :
    (putFeatureAtSelection (baseScene fun _ _ => -1) [[-2]] true false false).1.feature 0 0 = -2 := by
  decide

/-- No cell of any row of a placement buffer is `-2`. -/
def bufNoMinus2 (grid : Buffer) : Prop := ∀ row ∈ grid, ∀ v ∈ row, v ≠ -2

/-- No tile buffer of the scene (grass, feature, or any named layer's
buffer) stores the explicit-clear sentinel `-2`. -/
def noMinus2 (s : Scene) : Prop :=
  (∀ a b, s.grass a b ≠ -2) ∧ (∀ a b, s.feature a b ≠ -2) ∧
  (∀ L ∈ s.named, ∀ a b, L.tiles a b ≠ -2)

theorem putTile_preserves_ne {w h : Int} {g : Grid} {x y v : Int} (hv : v ≠ -2)
    (hg : ∀ a b, g a b ≠ -2) : ∀ a b, putTile w h g x y v a b ≠ -2 := by
  intro a b
  unfold putTile
  split
  · dsimp only
    split
    · exact hv
    · exact hg a b
  · exact hg a b

theorem clearNamedAll_preserves_ne {named : List NamedLayer} {px py : Int}
    (h : ∀ L ∈ named, ∀ a b, L.tiles a b ≠ -2) :
    ∀ L' ∈ clearNamedAll named px py, ∀ a b, L'.tiles a b ≠ -2 := by
  intro L' hmem a b
  obtain ⟨L, hL, rfl⟩ := List.mem_map.mp hmem
  by_cases hc : containsB L.bounds px py
  · simp only [clearNamedAll, if_pos hc]
    exact putTile_preserves_ne (by decide) (h L hL) a b
  · simp only [clearNamedAll, if_neg hc]
    exact h L hL a b

theorem placeInActive_preserves_ne {named named' : List NamedLayer} {b : Bounds}
    {px py v : Int} (heq : placeInActive named b px py v = some named')
    (hv : v ≠ -2) (h : ∀ L ∈ named, ∀ a b, L.tiles a b ≠ -2) :
    ∀ L' ∈ named', ∀ a b, L'.tiles a b ≠ -2 := by
  induction named generalizing named' with
  | nil => simp [placeInActive] at heq
  | cons L rest ih =>
    unfold placeInActive at heq
    by_cases hb : L.bounds = b
    · rw [if_pos hb, Option.some.injEq] at heq
      subst heq
      intro L' hL' a c
      rcases List.mem_cons.mp hL' with rfl | hmem
      · exact putTile_preserves_ne hv (h L (List.mem_cons_self L rest)) a c
      · exact h L' (List.mem_cons_of_mem L hmem) a c
    · rw [if_neg hb] at heq
      cases hrec : placeInActive rest b px py v with
      | none => rw [hrec] at heq; cases heq
      | some rest' =>
        rw [hrec] at heq
        simp only [Option.map_some', Option.some.injEq] at heq
        subst heq
        intro L' hL' a c
        rcases List.mem_cons.mp hL' with rfl | hmem
        · exact h _ (List.mem_cons_self _ rest) a c
        · exact ih hrec (fun K hK => h K (List.mem_cons_of_mem _ hK)) L' hmem a c

theorem consOutcome_placed {L : NamedLayer} {o : NamedOutcome}
    {named' : List NamedLayer} (h : consOutcome L o = .placed named') :
    ∃ rest', o = .placed rest' ∧ named' = L :: rest' := by
  cases o with
  | placed r =>
    refine ⟨r, rfl, ?_⟩
    cases h
    rfl
  | blocked => cases h
  | nohit => cases h

theorem placeInNamed_preserves_ne {undoing : Bool} {named named' : List NamedLayer}
    {px py v : Int} (heq : placeInNamed undoing named px py v = .placed named')
    (hv : v ≠ -2) (h : ∀ L ∈ named, ∀ a b, L.tiles a b ≠ -2) :
    ∀ L' ∈ named', ∀ a b, L'.tiles a b ≠ -2 := by
  induction named generalizing named' with
  | nil => simp [placeInNamed] at heq
  | cons L rest ih =>
    simp only [placeInNamed] at heq
    by_cases hc : containsB L.bounds px py
    · rw [if_pos hc] at heq
      split at heq
      · split at heq
        · cases heq
          intro L' hL' a c
          rcases List.mem_cons.mp hL' with rfl | hmem
          · exact putTile_preserves_ne hv (h L (List.mem_cons_self L rest)) a c
          · exact h L' (List.mem_cons_of_mem L hmem) a c
        · cases heq
      · obtain ⟨rest', hrec, rfl⟩ := consOutcome_placed heq
        intro L' hL' a c
        rcases List.mem_cons.mp hL' with rfl | hmem
        · exact h _ (List.mem_cons_self _ rest) a c
        · exact ih hrec (fun K hK => h K (List.mem_cons_of_mem _ hK)) L' hmem a c
    · rw [if_neg hc] at heq
      obtain ⟨rest', hrec, rfl⟩ := consOutcome_placed heq
      intro L' hL' a c
      rcases List.mem_cons.mp hL' with rfl | hmem
      · exact h _ (List.mem_cons_self _ rest) a c
      · exact ih hrec (fun K hK => h K (List.mem_cons_of_mem _ hK)) L' hmem a c

theorem bufGet_mem {grid : Buffer} {y x : Nat} {v : Int}
    (h : bufGet grid y x = some v) : ∃ row ∈ grid, v ∈ row := by
  unfold bufGet at h
  cases hr : grid.get? y with
  | none => rw [hr] at h; cases h
  | some row =>
    rw [hr] at h
    exact ⟨row, List.get?_mem hr, List.get?_mem h⟩

theorem putTileC_preserves_ne {g : Grid} {x y v : Int} (hv : v ≠ -2)
    (hg : ∀ a b, g a b ≠ -2) : ∀ a b, putTileC g x y v a b ≠ -2 := by
  unfold putTileC
  exact putTile_preserves_ne hv hg

theorem activeResOf_preserves_ne {s : Scene} {px py v : Int}
    {named' : List NamedLayer} (hact : activeResOf s px py v = some named')
    (hv : v ≠ -2) (h : ∀ L ∈ s.named, ∀ a b, L.tiles a b ≠ -2) :
    ∀ L' ∈ named', ∀ a b, L'.tiles a b ≠ -2 := by
  unfold activeResOf at hact
  split at hact
  · split at hact
    · exact placeInActive_preserves_ne hact hv h
    · cases hact
  · cases hact

theorem processCellPlace_preserves_ne {acceptneg undoing : Bool} {px py v : Int}
    {st1 : PlaceState} (hsafe : v = -2 → acceptneg = true)
    (hs1 : noMinus2 st1.scene) :
    noMinus2 (processCellPlace acceptneg undoing px py st1 v).scene := by
  unfold processCellPlace
  by_cases hclear : acceptneg = true ∧ v = -2
  · rw [if_pos hclear]
    exact ⟨hs1.1, putTileC_preserves_ne (by decide) hs1.2.1,
      clearNamedAll_preserves_ne hs1.2.2⟩
  · rw [if_neg hclear]
    have hvne : v ≠ -2 := fun hv => hclear ⟨hsafe hv, hv⟩
    cases hact : activeResOf st1.scene px py v with
    | some named' =>
      exact ⟨hs1.1, hs1.2.1, activeResOf_preserves_ne hact hvne hs1.2.2⟩
    | none =>
      cases hn : (if 0 ≤ v then placeInNamed undoing st1.scene.named px py v
          else NamedOutcome.nohit) with
      | placed named' =>
        refine ⟨hs1.1, hs1.2.1, ?_⟩
        split at hn
        · exact placeInNamed_preserves_ne hn hvne hs1.2.2
        · cases hn
      | blocked => exact hs1
      | nohit =>
        show noMinus2 (fallbackPlace undoing px py st1 v).scene
        unfold fallbackPlace
        split
        · split
          · refine ⟨hs1.1, putTileC_preserves_ne hvne hs1.2.1, ?_⟩
            show (∀ L ∈ (if undoing = true then clearNamedAll st1.scene.named px py
              else st1.scene.named), ∀ a b, L.tiles a b ≠ -2)
            split
            · exact clearNamedAll_preserves_ne hs1.2.2
            · exact hs1.2.2
          · exact hs1
        · split
          · refine ⟨hs1.1, putTileC_preserves_ne hvne hs1.2.1, ?_⟩
            show (∀ L ∈ (if undoing = true then clearNamedAll st1.scene.named px py
              else st1.scene.named), ∀ a b, L.tiles a b ≠ -2)
            split
            · exact clearNamedAll_preserves_ne hs1.2.2
            · exact hs1.2.2
          · exact hs1

theorem processCellVal_preserves_ne {acceptneg undoing : Bool} {px py v : Int}
    {st : PlaceState} (hsafe : v = -2 → acceptneg = true)
    (hs : noMinus2 st.scene) :
    noMinus2 (processCellVal acceptneg undoing px py st v).scene := by
  unfold processCellVal
  split
  · exact hs
  · refine processCellPlace_preserves_ne hsafe ?_
    unfold countTile
    split
    · exact hs
    · exact hs

theorem processCell_preserves_ne {acceptneg undoing : Bool} {startX startY : Int}
    {grid : Buffer} {st : PlaceState} {p : Nat × Nat}
    (hbuf : acceptneg = true ∨ bufNoMinus2 grid)
    (hs : noMinus2 st.scene) :
    noMinus2 (processCell acceptneg undoing startX startY grid st p).scene := by
  unfold processCell
  split
  · exact hs
  · split
    · exact hs
    · rename_i v hbg
      refine processCellVal_preserves_ne ?_ hs
      intro hv
      rcases hbuf with h | h
      · exact h
      · obtain ⟨row, hrow, hvmem⟩ := bufGet_mem hbg
        exact absurd hv (h row hrow v hvmem)

theorem foldl_processCell_preserves_ne {acceptneg undoing : Bool}
    {startX startY : Int} {grid : Buffer}
    (hbuf : acceptneg = true ∨ bufNoMinus2 grid) :
    ∀ (l : List (Nat × Nat)) (st : PlaceState), noMinus2 st.scene →
      noMinus2 (l.foldl (processCell acceptneg undoing startX startY grid) st).scene := by
  intro l
  induction l with
  | nil => intro st hs; exact hs
  | cons p rest ih =>
    intro st hs
    exact ih _ (processCell_preserves_ne hbuf hs)

theorem noMinus2_resolveAnchor {s : Scene} {worldOverride : Bool}
    (hs : noMinus2 s) : noMinus2 (resolveAnchor s worldOverride).1 := by
  unfold resolveAnchor
  split
  · split
    · split
      · exact hs
      · exact hs
    · exact hs
  · exact hs

theorem noMinus2_snapshotPhase {s : Scene} {acceptneg : Bool}
    (hs : noMinus2 s) : noMinus2 (snapshotPhase s acceptneg) := by
  unfold snapshotPhase
  split
  · split
    · exact hs
    · exact hs
  · exact hs

theorem noMinus2_prune {s : Scene} {changed : List (Int × Int)}
    (hs : noMinus2 s) : noMinus2 (pruneBrokenTreesScene s changed) := by
  refine ⟨hs.1, ?_, hs.2.2⟩
  intro a b
  show pruneBrokenTrees s.feature changed a b ≠ -2
  rw [prune_eval]
  split
  · decide
  · exact hs.2.1 a b

/-- C6, amended: for every placement call in which `acceptExplicitClear`
is set or whose buffer contains no `-2` entries, if no tile buffer (grass,
feature, or named layer) holds `-2` before the call, none holds `-2` after
it.  (Without that proviso the claim fails, see `claim6_counterexample`:
a `-2` buffer cell with `acceptExplicitClear` unset is written verbatim to
the feature layer by the fallback branch.) -/
theorem claim6_sentinel_amended (s : Scene) (grid : Buffer)
    (worldOverride acceptneg undoing : Bool)
    (hpre : noMinus2 s) (hbuf : acceptneg = true ∨ bufNoMinus2 grid) :
    noMinus2 (putFeatureAtSelection s grid worldOverride acceptneg undoing).1 := by
  unfold putFeatureAtSelection
  by_cases hz : ((if grid.length > 0 then ((grid.head?.map List.length).getD 0) else 0) = 0 ∨
      grid.length = 0)
  · rw [if_pos hz]
    exact noMinus2_snapshotPhase (noMinus2_resolveAnchor hpre)
  · rw [if_neg hz]
    refine noMinus2_prune ?_
    unfold placementRun
    exact foldl_processCell_preserves_ne hbuf _ _
      (noMinus2_snapshotPhase (noMinus2_resolveAnchor hpre))

/-- Witness for C6 (amended): an explicit-clear call whose buffer is the
single cell `-2`, on a scene with no stored `-2`, leaves no stored `-2`. -/
theorem claim6_witness :
    noMinus2 (putFeatureAtSelection (baseScene fun _ _ => -1) [[-2]] true true false).1 :=
  claim6_sentinel_amended _ _ _ _ _
    ⟨fun a b => by simp [baseScene], fun a b => by simp [baseScene], by simp [baseScene]⟩
    (Or.inl rfl)

/-- A reachable scene whose feature layer holds the complete yellow 2-cell
tree: tile `3` at `(0,0)` over tile `15` at `(0,1)` (the shape survives
pruning because both halves are present). -/
def yellowTreeScene : Scene :=
  baseScene fun x y => if x = 0 ∧ y = 0 then 3 else if x = 0 ∧ y = 1 then 15 else -1

set_option maxRecDepth 40000 in
/-- C3 evaluated at its failing input: the combined read at `(0,0)` is `3`
before the flatten/load round-trip but `0` (the underlying grass tile)
after it, because `loadMapFromJSON` routes only values `> 3` to the
feature layer and `0..2` to the grass layer, writing the value `3`
nowhere; the neighbouring value `15 > 3` round-trips correctly. -/
theorem claim3_load_drops_tile3 :
    getTileAtGlobal yellowTreeScene 0 0 = 3 ∧
    getTileAtGlobal (loadMapFromJSON yellowTreeScene (GetFlattenedTileMap yellowTreeScene)) 0 0 = 0 ∧
    getTileAtGlobal (loadMapFromJSON yellowTreeScene (GetFlattenedTileMap yellowTreeScene)) 0 1 = 15 :=
  ⟨by decide, by decide, by decide⟩

/-- The first named layer (in insertion order) whose bounds contain the
cell: the destination the named-layer branch resolves to. -/
def firstContaining : List NamedLayer → Int → Int → Option NamedLayer
  | [], _, _ => none
  | L :: rest, px, py =>
    if containsB L.bounds px py then some L else firstContaining rest px py

/-- The tile currently at the arbitration destination: the first
containing named layer's local tile (as the named branch reads it,
`existingTile ? existingTile.index : -1`), or, for the feature-layer
fallback, the combined `GetFlattenedTileMap` value the fallback reads. -/
def arbExisting (s : Scene) (px py : Int) : Int :=
  match firstContaining s.named px py with
  | some L => (namedGet L px py).getD (-1)
  | none => (bufGet (GetFlattenedTileMap s) py.toNat px.toNat).getD (-1)

/-- A read-back of the destination cell: the first containing named
layer's local tile, or the raw feature-layer cell when no named layer
contains the point. -/
def destRead (s : Scene) (px py : Int) : Int :=
  match firstContaining s.named px py with
  | some L => (namedGet L px py).getD (-1)
  | none => s.feature px py

theorem firstContaining_some_contains {named : List NamedLayer} {px py : Int}
    {L : NamedLayer} (h : firstContaining named px py = some L) :
    containsB L.bounds px py := by
  induction named with
  | nil => cases h
  | cons K rest ih =>
    unfold firstContaining at h
    split at h
    · cases h
      assumption
    · exact ih h

theorem placeInNamed_of_none {undoing : Bool} {named : List NamedLayer}
    {px py v : Int} (h : firstContaining named px py = none) :
    placeInNamed undoing named px py v = .nohit := by
  induction named with
  | nil => rfl
  | cons K rest ih =>
    unfold firstContaining at h
    split at h
    · cases h
    · unfold placeInNamed
      rw [if_neg (by assumption)]
      rw [ih h]
      rfl

theorem namedPut_bounds (L : NamedLayer) (px py v : Int) :
    (namedPut L px py v).bounds = L.bounds := rfl

theorem namedGet_namedPut_self {L : NamedLayer} {px py v : Int}
    (hc : containsB L.bounds px py) (hv : v ≠ -1) :
    namedGet (namedPut L px py v) px py = some v := by
  unfold namedGet namedPut putTile layerGet
  obtain ⟨h1, h2, h3, h4⟩ := hc
  have hcond : 0 ≤ px - L.bounds.x ∧ px - L.bounds.x < L.bounds.width ∧
      0 ≤ py - L.bounds.y ∧ py - L.bounds.y < L.bounds.height := by omega
  simp only [if_pos hcond]
  simp [hv]

theorem placeInNamed_spec_placed {undoing : Bool} {named : List NamedLayer}
    {px py v : Int} {L : NamedLayer}
    (hfc : firstContaining named px py = some L)
    (harb : getTilePriority v ≥ getTilePriority ((namedGet L px py).getD (-1)) ∨
      undoing = true) :
    ∃ named', placeInNamed undoing named px py v = .placed named' ∧
      firstContaining named' px py = some (namedPut L px py v) := by
  induction named with
  | nil => cases hfc
  | cons K rest ih =>
    unfold firstContaining at hfc
    by_cases hc : containsB K.bounds px py
    · rw [if_pos hc] at hfc
      cases hfc
      refine ⟨namedPut L px py v :: rest, ?_, ?_⟩
      · unfold placeInNamed
        rw [if_pos hc, if_pos (Or.inr (show allowOverwriting = true from rfl)), if_pos harb]
      · unfold firstContaining
        rw [if_pos (by rw [namedPut_bounds]; exact hc)]
    · rw [if_neg hc] at hfc
      obtain ⟨rest', hrec, hfc'⟩ := ih hfc
      refine ⟨K :: rest', ?_, ?_⟩
      · unfold placeInNamed
        rw [if_neg hc, hrec]
        rfl
      · unfold firstContaining
        rw [if_neg hc]
        exact hfc'

theorem placeInNamed_spec_blocked {undoing : Bool} {named : List NamedLayer}
    {px py v : Int} {L : NamedLayer}
    (hfc : firstContaining named px py = some L)
    (harb : ¬(getTilePriority v ≥ getTilePriority ((namedGet L px py).getD (-1)) ∨
      undoing = true)) :
    placeInNamed undoing named px py v = .blocked := by
  induction named with
  | nil => cases hfc
  | cons K rest ih =>
    unfold firstContaining at hfc
    by_cases hc : containsB K.bounds px py
    · rw [if_pos hc] at hfc
      cases hfc
      unfold placeInNamed
      rw [if_pos hc, if_pos (Or.inr (show allowOverwriting = true from rfl)), if_neg harb]
    · rw [if_neg hc] at hfc
      unfold placeInNamed
      rw [if_neg hc, ih hfc]
      rfl

theorem firstContaining_clearNamedAll {named : List NamedLayer} {px py qx qy : Int}
    (h : firstContaining named qx qy = none) :
    firstContaining (clearNamedAll named px py) qx qy = none := by
  induction named with
  | nil => rfl
  | cons K rest ih =>
    unfold firstContaining at h
    split at h
    · cases h
    · unfold clearNamedAll firstContaining
      simp only [List.map_cons]
      rw [if_neg]
      · exact ih h
      · split
        · rw [namedPut_bounds]; assumption
        · assumption

theorem countTile_scene (undoing : Bool) (st : PlaceState) (v : Int) :
    (countTile undoing st v).scene = st.scene := by
  unfold countTile
  split <;> rfl

theorem countTile_changed (undoing : Bool) (st : PlaceState) (v : Int) :
    (countTile undoing st v).changed = st.changed := by
  unfold countTile
  split <;> rfl

theorem countTile_skipped (undoing : Bool) (st : PlaceState) (v : Int) :
    (countTile undoing st v).tilesSkipped = st.tilesSkipped := by
  unfold countTile
  split <;> rfl

/-- C1: priority arbitration at the destination of a placement.  For a
buffer cell holding a concrete tile `v ≥ 0` that reaches the arbitration
step (its target is inside the canvas and the active-layer branch did not
claim it), the write happens exactly when `isUndo` is set or
`priority(v) ≥ priority(existing tile at the destination)` — so ties go to
the new tile; a permitted write stores `v` at the destination and records
the cell changed, while a refused write increments `tilesSkipped` and
leaves the scene (in particular the destination cell) unchanged. -/
theorem claim1_priority_arbitration (acceptneg undoing : Bool)
    (startX startY : Int) (grid : Buffer) (st : PlaceState) (yOff xOff : Nat) (v : Int)
    (hv : bufGet grid yOff xOff = some v) (hv0 : 0 ≤ v)
    (hin : inCanvasP (startX + (xOff : Int)) (startY + (yOff : Int)))
    (hact : activeResOf st.scene (startX + (xOff : Int)) (startY + (yOff : Int)) v = none) :
    ((undoing = true ∨ getTilePriority v ≥
        getTilePriority (arbExisting st.scene (startX + (xOff : Int)) (startY + (yOff : Int)))) →
      destRead (processCell acceptneg undoing startX startY grid st (yOff, xOff)).scene
          (startX + (xOff : Int)) (startY + (yOff : Int)) = v ∧
      (processCell acceptneg undoing startX startY grid st (yOff, xOff)).changed =
        st.changed ++ [(startX + (xOff : Int), startY + (yOff : Int))] ∧
      (processCell acceptneg undoing startX startY grid st (yOff, xOff)).tilesSkipped =
        st.tilesSkipped) ∧
    ((undoing = false ∧ getTilePriority v <
        getTilePriority (arbExisting st.scene (startX + (xOff : Int)) (startY + (yOff : Int)))) →
      (processCell acceptneg undoing startX startY grid st (yOff, xOff)).scene = st.scene ∧
      (processCell acceptneg undoing startX startY grid st (yOff, xOff)).changed = st.changed ∧
      (processCell acceptneg undoing startX startY grid st (yOff, xOff)).tilesSkipped =
        st.tilesSkipped + 1) := by
  set px := startX + (xOff : Int) with hpx
  set py := startY + (yOff : Int) with hpy
  have hvne1 : v ≠ -1 := by omega
  have hred : processCell acceptneg undoing startX startY grid st (yOff, xOff) =
      processCellPlace acceptneg undoing px py (countTile undoing st v) v := by
    unfold processCell processCellVal
    dsimp only
    rw [← hpx, ← hpy, if_neg (not_not_intro hin), hv]
    show (if v = -1 ∧ undoing = false then st
      else processCellPlace acceptneg undoing px py (countTile undoing st v) v) =
      processCellPlace acceptneg undoing px py (countTile undoing st v) v
    rw [if_neg (fun hcon => hvne1 hcon.1)]
  have hclear2 : ¬(acceptneg = true ∧ v = -2) := fun hcon => by omega
  cases hfc : firstContaining st.scene.named px py with
  | some L =>
    have he : arbExisting st.scene px py = (namedGet L px py).getD (-1) := by
      unfold arbExisting
      rw [hfc]
    constructor
    · intro hwin
      have harb : getTilePriority v ≥ getTilePriority ((namedGet L px py).getD (-1)) ∨
          undoing = true := by
        rcases hwin with h | h
        · exact Or.inr h
        · rw [he] at h
          exact Or.inl h
      obtain ⟨named', hplaced, hfc'⟩ := placeInNamed_spec_placed hfc harb
      have heq : processCellPlace acceptneg undoing px py (countTile undoing st v) v =
          placedResult (countTile undoing st v) named' px py := by
        unfold processCellPlace
        rw [if_neg hclear2, countTile_scene, hact, if_pos hv0, hplaced]
      rw [hred, heq]
      refine ⟨?_, ?_, ?_⟩
      · show destRead (placedResult (countTile undoing st v) named' px py).scene px py = v
        unfold destRead placedResult
        dsimp only
        rw [hfc']
        show (namedGet (namedPut L px py v) px py).getD (-1) = v
        rw [namedGet_namedPut_self (firstContaining_some_contains hfc) hvne1]
        rfl
      · show (countTile undoing st v).changed ++ [(px, py)] = st.changed ++ [(px, py)]
        rw [countTile_changed]
      · show (countTile undoing st v).tilesSkipped = st.tilesSkipped
        rw [countTile_skipped]
    · rintro ⟨hu, hlt⟩
      rw [he] at hlt
      have harb : ¬(getTilePriority v ≥ getTilePriority ((namedGet L px py).getD (-1)) ∨
          undoing = true) := by
        rintro (h | h)
        · omega
        · rw [hu] at h
          cases h
      have heq : processCellPlace acceptneg undoing px py (countTile undoing st v) v =
          skippedResult (countTile undoing st v) := by
        unfold processCellPlace
        rw [if_neg hclear2, countTile_scene, hact, if_pos hv0,
          placeInNamed_spec_blocked hfc harb]
      rw [hred, heq]
      exact ⟨countTile_scene undoing st v, countTile_changed undoing st v,
        by show (countTile undoing st v).tilesSkipped + 1 = st.tilesSkipped + 1
           rw [countTile_skipped]⟩
  | none =>
    have he : arbExisting st.scene px py =
        (bufGet (GetFlattenedTileMap st.scene) py.toNat px.toNat).getD (-1) := by
      unfold arbExisting
      rw [hfc]
    have hnohit : placeInNamed undoing st.scene.named px py v = .nohit :=
      placeInNamed_of_none hfc
    constructor
    · intro hwin
      have harb : getTilePriority v ≥
          getTilePriority ((bufGet (GetFlattenedTileMap st.scene) py.toNat px.toNat).getD (-1)) ∨
          undoing = true := by
        rcases hwin with h | h
        · exact Or.inr h
        · rw [he] at h
          exact Or.inl h
      have heq : processCellPlace acceptneg undoing px py (countTile undoing st v) v =
          fallbackWrite undoing px py (countTile undoing st v) v := by
        unfold processCellPlace
        rw [if_neg hclear2, countTile_scene, hact, if_pos hv0, hnohit]
        unfold fallbackPlace
        rw [if_pos (show allowOverwriting = true from rfl), countTile_scene, if_pos harb]
      rw [hred, heq]
      refine ⟨?_, ?_, ?_⟩
      · show destRead (fallbackWrite undoing px py (countTile undoing st v) v).scene px py = v
        unfold destRead fallbackWrite
        dsimp only
        rw [countTile_scene]
        have hfc2 : firstContaining
            (if undoing = true then clearNamedAll st.scene.named px py
             else st.scene.named) px py = none := by
          split
          · exact firstContaining_clearNamedAll hfc
          · exact hfc
        rw [hfc2]
        show putTileC st.scene.feature px py v px py = v
        rw [putTileC_eval, if_pos ⟨⟨rfl, rfl⟩, hin⟩]
      · show (countTile undoing st v).changed ++ [(px, py)] = st.changed ++ [(px, py)]
        rw [countTile_changed]
      · show (countTile undoing st v).tilesSkipped = st.tilesSkipped
        rw [countTile_skipped]
    · rintro ⟨hu, hlt⟩
      rw [he] at hlt
      have harb : ¬(getTilePriority v ≥
          getTilePriority ((bufGet (GetFlattenedTileMap st.scene) py.toNat px.toNat).getD (-1)) ∨
          undoing = true) := by
        rintro (h | h)
        · omega
        · rw [hu] at h
          cases h
      have heq : processCellPlace acceptneg undoing px py (countTile undoing st v) v =
          skippedResult (countTile undoing st v) := by
        unfold processCellPlace
        rw [if_neg hclear2, countTile_scene, hact, if_pos hv0, hnohit]
        unfold fallbackPlace
        rw [if_pos (show allowOverwriting = true from rfl), countTile_scene, if_neg harb]
      rw [hred, heq]
      exact ⟨countTile_scene undoing st v, countTile_changed undoing st v,
        by show (countTile undoing st v).tilesSkipped + 1 = st.tilesSkipped + 1
           rw [countTile_skipped]⟩

/-- Witness for C1: placing fence tile `45` at `(2,2)` on an empty scene
reaches arbitration against the grass tile (priority 0 vs 4) and wins: the
destination holds `45`, the cell is recorded changed, nothing skipped. -/
theorem claim1_witness :
    destRead (processCell false false 2 2 [[45]]
        ⟨baseScene fun _ _ => -1, [], 0, 0⟩ (0, 0)).scene 2 2 = 45 ∧
    (processCell false false 2 2 [[45]]
        ⟨baseScene fun _ _ => -1, [], 0, 0⟩ (0, 0)).changed = [] ++ [(2, 2)] ∧
    (processCell false false 2 2 [[45]]
        ⟨baseScene fun _ _ => -1, [], 0, 0⟩ (0, 0)).tilesSkipped = 0 :=
  (claim1_priority_arbitration false false 2 2 [[45]]
      ⟨baseScene fun _ _ => -1, [], 0, 0⟩ 0 0 45
      (by decide) (by decide) (by decide) rfl).1 (Or.inr (by decide))

theorem cellOffsets_width_zero (h : Nat) : cellOffsets h 0 = [] := by
  unfold cellOffsets
  simp

theorem cellOffsets_height_zero (w : Nat) : cellOffsets 0 w = [] := by
  unfold cellOffsets
  simp

/-- C7: out-of-range placement cells are safe.  First, a buffer cell whose
absolute coordinate falls outside the `CANVAS_WIDTH × CANVAS_HEIGHT` grid
is silently skipped: the loop body returns its state unchanged, so the
cell contributes to no count and to no layer (and, the model being total,
nothing is raised).  Second, the returned `placed` count always equals the
number of recorded changed cells. -/
theorem claim7_out_of_range_safe :
    (∀ (acceptneg undoing : Bool) (startX startY : Int) (grid : Buffer)
        (st : PlaceState) (yOff xOff : Nat),
        ¬inCanvasP (startX + (xOff : Int)) (startY + (yOff : Int)) →
        processCell acceptneg undoing startX startY grid st (yOff, xOff) = st) ∧
    (∀ (s : Scene) (grid : Buffer) (worldOverride acceptneg undoing : Bool),
        (putFeatureAtSelection s grid worldOverride acceptneg undoing).2.placed =
          (placementRun s grid worldOverride acceptneg undoing).changed.length) := by
  constructor
  · intro acceptneg undoing startX startY grid st yOff xOff h
    unfold processCell
    dsimp only
    rw [if_pos h]
  · intro s grid worldOverride acceptneg undoing
    unfold putFeatureAtSelection
    by_cases hz : ((if grid.length > 0 then ((grid.head?.map List.length).getD 0) else 0) = 0 ∨
        grid.length = 0)
    · rw [if_pos hz]
      show 0 = (placementRun s grid worldOverride acceptneg undoing).changed.length
      unfold placementRun
      rcases hz with hz | hz
      · rw [hz, cellOffsets_width_zero]
        rfl
      · rw [hz, cellOffsets_height_zero]
        rfl
    · rw [if_neg hz]

/-- Witness for C7: a cell aimed at `x = -5` is skipped without any state
change, and a concrete call's `placed` equals its changed-cell count. -/
theorem claim7_witness :
    processCell false false (-5) 0 [[7]] ⟨baseScene fun _ _ => -1, [], 0, 0⟩ (0, 0) =
      ⟨baseScene fun _ _ => -1, [], 0, 0⟩ ∧
    (putFeatureAtSelection (baseScene fun _ _ => -1) [[7]] true false false).2.placed =
      (placementRun (baseScene fun _ _ => -1) [[7]] true false false).changed.length :=
  ⟨claim7_out_of_range_safe.1 false false (-5) 0 [[7]] _ 0 0 (by decide),
   claim7_out_of_range_safe.2 _ _ _ _ _⟩

/-- Modelled from the spec: `RegionTree.add(name, rect, parent=root)` of
§4.4 — the `Tree` class (`TreeStructure.ts`) is not among the sources, so
the add used by `nameSelection` is modelled as attaching a fresh leaf node
under the root. -/
def treeAdd (t : TreeNode) (name : String) : TreeNode :=
  match t with
  | .node n cs => .node n (cs ++ [.node name []])

mutual

/-- Modelled from the spec: `RegionTree.rename(old, new)` of §4.4 —
relabel the matching node in place, preserving children and position. -/
def treeRename : TreeNode → String → String → TreeNode
  | .node n cs, o, m => .node (if n = o then m else n) (treeRenameList cs o m)

def treeRenameList : List TreeNode → String → String → List TreeNode
  | [], _, _ => []
  | t :: ts, o, m => treeRename t o m :: treeRenameList ts o m

end

/-- `namedLayers.has(name)` (the `Map` is keyed by layer name). -/
def hasLayer (s : Scene) (name : String) : Bool :=
  s.named.any fun L => L.name = name

/-- `TinyTownScene.nameSelection`: carve the current selection rectangle
out as a new named layer — a fresh `width×height` buffer receiving (as the
pointwise value of the copy loop) every feature tile of the rectangle with
index `>= 0`, those cells being removed from the feature layer; register
the layer at the end of `namedLayers` and add a region-tree node.  (The
selection vectors are assumed present, as the source does; the
`createBlankLayer` failure path and the UI event are not modelled.) -/
def nameSelection (s : Scene) (name : String) : Scene :=
  let st := s.selectionStart.getD (0, 0)
  let en := s.selectionEnd.getD (0, 0)
  let sx := min st.1 en.1
  let sy := min st.2 en.2
  let ex := max st.1 en.1
  let ey := max st.2 en.2
  let w := ex - sx + 1
  let h := ey - sy + 1
  { s with
    feature := fun x y =>
      if (sx ≤ x ∧ x ≤ ex ∧ sy ≤ y ∧ y ≤ ey) ∧ 0 ≤ (layerGetC s.feature x y).getD (-1) then -1
      else s.feature x y,
    named := s.named ++ [⟨name, ⟨sx, sy, w, h⟩,
      fun lx ly =>
        if (0 ≤ lx ∧ lx < w ∧ 0 ≤ ly ∧ ly < h) ∧
            0 ≤ (layerGetC s.feature (sx + lx) (sy + ly)).getD (-1) then
          (layerGetC s.feature (sx + lx) (sy + ly)).getD (-1)
        else -1⟩],
    layerTree := treeAdd s.layerTree name }

/-- `TinyTownScene.renameLayer`: missing old name is a warn-and-return;
otherwise the `Map` entry is deleted and re-inserted under the new name
(which moves it to the end of the insertion order), and the region-tree
node is renamed in place. -/
def renameLayer (s : Scene) (oldName newName : String) : Scene :=
  match s.named.find? (fun L => L.name = oldName) with
  | none => s
  | some info =>
    { s with
      named := (s.named.eraseP fun L => L.name = oldName) ++ [{ info with name := newName }],
      layerTree := treeRename s.layerTree oldName newName }

/-- The result of a layer tool call: whether it reported success, and the
scene afterwards (an error string return maps to `success = false`). -/
structure ToolOutcome where
  success : Bool
  scene : Scene

/-- `NameLayerTool.toolCall` of `src/unnamed/part_002`: empty (or
whitespace-only) names and already-existing names are rejected before
anything is touched; otherwise `nameSelection` runs. -/
def nameLayerToolCall (s : Scene) (name : String) : ToolOutcome :=
  if name.trim.length = 0 then ⟨false, s⟩
  else if hasLayer s name then ⟨false, s⟩
  else ⟨true, nameSelection s name⟩

/-- `RenameLayerTool.toolCall` of `src/unnamed/part_002`: missing old
name, taken new name, and empty new name are rejected, in that order,
before anything is touched; otherwise `renameLayer` runs. -/
def renameLayerToolCall (s : Scene) (oldName newName : String) : ToolOutcome :=
  if ¬hasLayer s oldName then ⟨false, s⟩
  else if hasLayer s newName then ⟨false, s⟩
  else if newName.trim.length = 0 then ⟨false, s⟩
  else ⟨true, renameLayer s oldName newName⟩

/-- C8: naming conflicts are all-or-nothing.  A rename whose new name is
already taken by another layer, or whose old name does not exist, is
reported failed and performs no mutation at all (named layers, their
buffers, and the region tree are fields of the returned scene, which is
the input scene unchanged); likewise creating a named layer whose name
already exists. -/
theorem claim8_naming_all_or_nothing :
    (∀ (s : Scene) (oldName newName : String),
        (hasLayer s newName = true ∧ newName ≠ oldName) ∨ hasLayer s oldName = false →
        renameLayerToolCall s oldName newName = ⟨false, s⟩) ∧
    (∀ (s : Scene) (name : String), hasLayer s name = true →
        nameLayerToolCall s name = ⟨false, s⟩) := by
  constructor
  · intro s oldName newName h
    unfold renameLayerToolCall
    by_cases hold : hasLayer s oldName
    · rw [if_neg (by simpa using hold)]
      rcases h with ⟨hnew, _⟩ | hmiss
      · rw [if_pos hnew]
      · rw [hold] at hmiss
        cases hmiss
    · rw [if_pos (by simpa using hold)]
  · intro s name h
    unfold nameLayerToolCall
    by_cases htrim : name.trim.length = 0
    · rw [if_pos htrim]
    · rw [if_neg htrim, if_pos h]

/-- A scene with two 2×2 named layers `a` and `b` for the C8 witness. -/
def twoLayerScene : Scene :=
  { baseScene (fun _ _ => -1) with
    named := [⟨"a", ⟨0, 0, 2, 2⟩, fun _ _ => -1⟩, ⟨"b", ⟨2, 0, 2, 2⟩, fun _ _ => -1⟩] }

/-- Witness for C8: renaming `a` to the taken name `b` fails without
mutation, renaming the missing `c` fails without mutation, and creating a
layer named `a` again fails without mutation. -/
theorem claim8_witness :
    renameLayerToolCall twoLayerScene "a" "b" = ⟨false, twoLayerScene⟩ ∧
    renameLayerToolCall twoLayerScene "c" "d" = ⟨false, twoLayerScene⟩ ∧
    nameLayerToolCall twoLayerScene "a" = ⟨false, twoLayerScene⟩ :=
  ⟨claim8_naming_all_or_nothing.1 twoLayerScene "a" "b"
      (Or.inl ⟨by decide, by decide⟩),
   claim8_naming_all_or_nothing.1 twoLayerScene "c" "d" (Or.inr (by decide)),
   claim8_naming_all_or_nothing.2 twoLayerScene "a" (by decide)⟩

/-! ## C9: region-tree moves (`drop` / `isDescendant`, src/src/main.ts 543-580)

`findNode`, `isDescendant`, `drop` and `dropToRoot` are translated from
`src/src/main.ts`.  The `Tree` class itself (`move`, `moveToRoot`, layer
creation) is not present under `src/`; `treeMove`, `treeMoveToRoot` and
`treeAddUnique` below are modelled from the spec: `move` detaches the named
subtree and re-attaches it under the target, is a no-op when either name is
absent, and in particular is a no-op when the target lies inside the moved
subtree (the detached target can no longer be found); layer creation adds a
leaf under the root and is guarded by the duplicate-name check of
`NameLayerTool`.  JS reference equality (`child === possibleChild`) is
modelled by structural equality `TreeNode.beq`. -/

mutual

def TreeNode.beq : TreeNode → TreeNode → Bool
  | .node n cs, .node m ds => n = m && TreeNode.beqList cs ds

def TreeNode.beqList : List TreeNode → List TreeNode → Bool
  | [], [] => true
  | t :: ts, u :: us => TreeNode.beq t u && TreeNode.beqList ts us
  | _, _ => false

end

instance : BEq TreeNode := ⟨TreeNode.beq⟩

mutual

def findNode : String → TreeNode → Option TreeNode
  | name, .node n cs => if n = name then some (.node n cs) else findNodeList name cs

def findNodeList : String → List TreeNode → Option TreeNode
  | _, [] => none
  | name, t :: ts =>
    match findNode name t with
    | some r => some r
    | none => findNodeList name ts

end

def optBeq : Option TreeNode → Option TreeNode → Bool
  | some a, some b => TreeNode.beq a b
  | none, none => true
  | _, _ => false

mutual

def isDescendantN : TreeNode → Option TreeNode → Bool
  | .node _ cs, c => isDescendantList cs c

def isDescendantList : List TreeNode → Option TreeNode → Bool
  | [], _ => false
  | t :: ts, c => optBeq c (some t) || isDescendantN t c || isDescendantList ts c

end

mutual

def namesOf : TreeNode → List String
  | .node n cs => n :: namesOfList cs

def namesOfList : List TreeNode → List String
  | [] => []
  | t :: ts => namesOf t ++ namesOfList ts

end

mutual

def subtrees : TreeNode → List TreeNode
  | .node n cs => .node n cs :: subtreesList cs

def subtreesList : List TreeNode → List TreeNode
  | [] => []
  | t :: ts => subtrees t ++ subtreesList ts

end

mutual

theorem namesOf_sublist_of_mem_subtrees : ∀ {t s : TreeNode},
    s ∈ subtrees t → (namesOf s).Sublist (namesOf t)
  | .node n cs, s, h => by
    simp only [subtrees] at h
    rcases List.mem_cons.mp h with rfl | h
    · exact List.Sublist.refl _
    · simp only [namesOf]
      exact (namesOf_sublist_of_mem_subtreesList h).cons _

theorem namesOf_sublist_of_mem_subtreesList : ∀ {cs : List TreeNode} {s : TreeNode},
    s ∈ subtreesList cs → (namesOf s).Sublist (namesOfList cs)
  | t :: ts, s, h => by
    simp only [subtreesList] at h
    simp only [namesOfList]
    rcases List.mem_append.mp h with h | h
    · exact (namesOf_sublist_of_mem_subtrees h).trans (List.sublist_append_left _ _)
    · exact (namesOf_sublist_of_mem_subtreesList h).trans (List.sublist_append_right _ _)

end

mutual

def removeNode : String → TreeNode → TreeNode × Option TreeNode
  | name, .node n cs =>
    (.node n (removeNodeList name cs).1, (removeNodeList name cs).2)

def removeNodeList : String → List TreeNode → List TreeNode × Option TreeNode
  | _, [] => ([], none)
  | name, t :: ts =>
    if t.name = name then (ts, some t)
    else
      match (removeNode name t).2 with
      | some sub => ((removeNode name t).1 :: ts, some sub)
      | none => ((removeNode name t).1 :: (removeNodeList name ts).1, (removeNodeList name ts).2)

end

mutual

def attachNode : String → TreeNode → TreeNode → TreeNode × Bool
  | target, sub, .node n cs =>
    if n = target then (.node n (cs ++ [sub]), true)
    else (.node n (attachList target sub cs).1, (attachList target sub cs).2)

def attachList : String → TreeNode → List TreeNode → List TreeNode × Bool
  | _, _, [] => ([], false)
  | target, sub, t :: ts =>
    if (attachNode target sub t).2 then ((attachNode target sub t).1 :: ts, true)
    else ((attachNode target sub t).1 :: (attachList target sub ts).1, (attachList target sub ts).2)

end

theorem namesOfList_append (a b : List TreeNode) :
    namesOfList (a ++ b) = namesOfList a ++ namesOfList b := by
  induction a with
  | nil => simp [namesOfList]
  | cons t ts ih => simp [namesOfList, ih, List.append_assoc]

mutual

theorem removeNode_none : ∀ {name : String} {t : TreeNode},
    (removeNode name t).2 = none → (removeNode name t).1 = t
  | name, .node n cs => by
    intro h
    simp only [removeNode] at h ⊢
    rw [removeNodeList_none h]

theorem removeNodeList_none : ∀ {name : String} {cs : List TreeNode},
    (removeNodeList name cs).2 = none → (removeNodeList name cs).1 = cs
  | name, [] => by
    intro _
    rfl
  | name, t :: ts => by
    intro h
    simp only [removeNodeList] at h ⊢
    by_cases hname : t.name = name
    · rw [if_pos hname] at h
      simp at h
    · rw [if_neg hname] at h ⊢
      cases hrm : (removeNode name t).2 with
      | some sub =>
        rw [hrm] at h
        simp at h
      | none =>
        rw [hrm] at h
        show (removeNode name t).1 :: (removeNodeList name ts).1 = t :: ts
        rw [removeNode_none hrm, removeNodeList_none h]

end

mutual

theorem removeNode_perm : ∀ {name : String} {t sub : TreeNode},
    (removeNode name t).2 = some sub →
    (namesOf t).Perm (namesOf (removeNode name t).1 ++ namesOf sub)
  | name, .node n cs, sub => by
    intro h
    simp only [removeNode] at h ⊢
    simp only [namesOf]
    exact (removeNodeList_perm h).cons n

theorem removeNodeList_perm : ∀ {name : String} {cs : List TreeNode} {sub : TreeNode},
    (removeNodeList name cs).2 = some sub →
    (namesOfList cs).Perm (namesOfList (removeNodeList name cs).1 ++ namesOf sub)
  | name, [], sub => by
    intro h
    cases h
  | name, t :: ts, sub => by
    intro h
    simp only [removeNodeList] at h ⊢
    by_cases hname : t.name = name
    · rw [if_pos hname] at h ⊢
      have hsub : t = sub := by
        have h' : some t = some sub := h
        exact Option.some.inj h'
      subst hsub
      show (namesOfList (t :: ts)).Perm (namesOfList ts ++ namesOf t)
      simp only [namesOfList]
      exact List.perm_append_comm
    · rw [if_neg hname] at h ⊢
      cases hrm : (removeNode name t).2 with
      | some sub' =>
        rw [hrm] at h
        have hsub : sub' = sub := by
          have h' : some sub' = some sub := h
          exact Option.some.inj h'
        subst hsub
        show (namesOfList (t :: ts)).Perm
          (namesOfList ((removeNode name t).1 :: ts) ++ namesOf sub')
        simp only [namesOfList]
        refine ((removeNode_perm hrm).append_right _).trans ?_
        simp only [List.append_assoc]
        exact List.Perm.append_left _ List.perm_append_comm
      | none =>
        rw [hrm] at h
        show (namesOfList (t :: ts)).Perm
          (namesOfList ((removeNode name t).1 :: (removeNodeList name ts).1) ++ namesOf sub)
        simp only [namesOfList]
        rw [removeNode_none hrm]
        refine (List.Perm.append_left _ (removeNodeList_perm h)).trans ?_
        simp only [List.append_assoc]
        exact List.Perm.refl _

end
mutual

theorem attachNode_false : ∀ {target : String} {sub t : TreeNode},
    (attachNode target sub t).2 = false → (attachNode target sub t).1 = t
  | target, sub, .node n cs => by
    intro h
    simp only [attachNode] at h ⊢
    by_cases htn : n = target
    · rw [if_pos htn] at h
      simp at h
    · rw [if_neg htn] at h ⊢
      show TreeNode.node n (attachList target sub cs).1 = .node n cs
      rw [attachList_false h]

theorem attachList_false : ∀ {target : String} {sub : TreeNode} {cs : List TreeNode},
    (attachList target sub cs).2 = false → (attachList target sub cs).1 = cs
  | target, sub, [] => by
    intro _
    rfl
  | target, sub, t :: ts => by
    intro h
    simp only [attachList] at h ⊢
    by_cases hat : (attachNode target sub t).2 = true
    · rw [if_pos hat] at h
      simp at h
    · rw [if_neg hat] at h ⊢
      have hat' : (attachNode target sub t).2 = false := by
        rwa [Bool.not_eq_true] at hat
      show (attachNode target sub t).1 :: (attachList target sub ts).1 = t :: ts
      rw [attachNode_false hat', attachList_false h]

end

mutual

theorem attachNode_perm : ∀ {target : String} {sub t : TreeNode},
    (attachNode target sub t).2 = true →
    (namesOf (attachNode target sub t).1).Perm (namesOf t ++ namesOf sub)
  | target, sub, .node n cs => by
    intro h
    simp only [attachNode] at h ⊢
    by_cases htn : n = target
    · rw [if_pos htn]
      show (namesOf (.node n (cs ++ [sub]))).Perm (namesOf (.node n cs) ++ namesOf sub)
      simp only [namesOf, namesOfList_append, namesOfList, List.append_nil, List.cons_append]
      exact List.Perm.refl _
    · rw [if_neg htn] at h ⊢
      show (namesOf (.node n (attachList target sub cs).1)).Perm
        (namesOf (.node n cs) ++ namesOf sub)
      simp only [namesOf]
      exact (attachList_perm h).cons n

theorem attachList_perm : ∀ {target : String} {sub : TreeNode} {cs : List TreeNode},
    (attachList target sub cs).2 = true →
    (namesOfList (attachList target sub cs).1).Perm (namesOfList cs ++ namesOf sub)
  | target, sub, [] => by
    intro h
    simp [attachList] at h
  | target, sub, t :: ts => by
    intro h
    simp only [attachList] at h ⊢
    by_cases hat : (attachNode target sub t).2 = true
    · rw [if_pos hat]
      show (namesOfList ((attachNode target sub t).1 :: ts)).Perm
        (namesOfList (t :: ts) ++ namesOf sub)
      simp only [namesOfList]
      refine ((attachNode_perm hat).append_right _).trans ?_
      simp only [List.append_assoc]
      exact List.Perm.append_left _ List.perm_append_comm
    · rw [if_neg hat] at h ⊢
      have hat' : (attachNode target sub t).2 = false := by
        rwa [Bool.not_eq_true] at hat
      show (namesOfList ((attachNode target sub t).1 :: (attachList target sub ts).1)).Perm
        (namesOfList (t :: ts) ++ namesOf sub)
      simp only [namesOfList]
      rw [attachNode_false hat']
      refine (List.Perm.append_left _ (attachList_perm h)).trans ?_
      simp only [List.append_assoc]
      exact List.Perm.refl _

end
def ROOT_DROP_ZONE : String := "ROOT_DROP_ZONE"

def treeMove (src target : String) (t : TreeNode) : TreeNode :=
  match (removeNode src t).2 with
  | none => t
  | some sub =>
    if (attachNode target sub (removeNode src t).1).2 then
      (attachNode target sub (removeNode src t).1).1
    else t

def treeMoveToRoot (src : String) (t : TreeNode) : TreeNode :=
  match (removeNode src t).2 with
  | none => t
  | some sub =>
    match (removeNode src t).1 with
    | .node n cs => .node n (cs ++ [sub])

def treeAddUnique (name : String) (t : TreeNode) : TreeNode :=
  if name ∈ namesOf t then t
  else
    match t with
    | .node n cs => .node n (cs ++ [.node name []])

def isDescendantO : Option TreeNode → Option TreeNode → Bool
  | none, _ => false
  | some p, c => isDescendantN p c

def dropToRoot : Option String → TreeNode → TreeNode
  | none, t => t
  | some dn, t => treeMoveToRoot dn t

def drop (draggedName targetName : Option String) (t : TreeNode) : TreeNode :=
  if targetName = some ROOT_DROP_ZONE then dropToRoot draggedName t
  else
    match draggedName, targetName with
    | some dn, some tn =>
      if dn = tn then t
      else if isDescendantO (findNode dn t) (findNode tn t) then t
      else treeMove dn tn t
    | _, _ => t

inductive TreeOp where
  | add (name : String)
  | drag (draggedName targetName : Option String)

def applyOp : TreeOp → TreeNode → TreeNode
  | .add name, t => treeAddUnique name t
  | .drag dn tn, t => drop dn tn t

def applyOps : List TreeOp → TreeNode → TreeNode
  | [], t => t
  | op :: ops, t => applyOps ops (applyOp op t)

theorem treeMove_perm (src target : String) (t : TreeNode) :
    (namesOf (treeMove src target t)).Perm (namesOf t) := by
  unfold treeMove
  cases hrm : (removeNode src t).2 with
  | none => exact List.Perm.refl _
  | some sub =>
    show (namesOf (if (attachNode target sub (removeNode src t).1).2 then
      (attachNode target sub (removeNode src t).1).1 else t)).Perm (namesOf t)
    by_cases hat : (attachNode target sub (removeNode src t).1).2 = true
    · rw [if_pos hat]
      exact (attachNode_perm hat).trans (removeNode_perm hrm).symm
    · rw [if_neg hat]

theorem treeMoveToRoot_perm (src : String) (t : TreeNode) :
    (namesOf (treeMoveToRoot src t)).Perm (namesOf t) := by
  unfold treeMoveToRoot
  cases hrm : (removeNode src t).2 with
  | none => exact List.Perm.refl _
  | some sub =>
    cases hr1 : (removeNode src t).1 with
    | node n cs =>
      have h1 := removeNode_perm hrm
      rw [hr1] at h1
      refine List.Perm.symm (h1.trans ?_)
      simp only [namesOf, namesOfList_append, namesOfList, List.append_nil, List.cons_append]
      exact List.Perm.refl _

theorem drop_perm (dn tn : Option String) (t : TreeNode) :
    (namesOf (drop dn tn t)).Perm (namesOf t) := by
  unfold drop
  by_cases hroot : tn = some ROOT_DROP_ZONE
  · rw [if_pos hroot]
    cases dn with
    | none => exact List.Perm.refl _
    | some d => exact treeMoveToRoot_perm d t
  · rw [if_neg hroot]
    cases dn with
    | none => exact List.Perm.refl _
    | some d =>
      cases tn with
      | none => exact List.Perm.refl _
      | some u =>
        show (namesOf (if d = u then t
          else if isDescendantO (findNode d t) (findNode u t) then t
          else treeMove d u t)).Perm (namesOf t)
        by_cases hdu : d = u
        · rw [if_pos hdu]
        · rw [if_neg hdu]
          by_cases hg : isDescendantO (findNode d t) (findNode u t) = true
          · rw [if_pos hg]
          · rw [if_neg hg]
            exact treeMove_perm d u t

theorem treeAddUnique_nodup (name : String) (t : TreeNode)
    (h : (namesOf t).Nodup) : (namesOf (treeAddUnique name t)).Nodup := by
  unfold treeAddUnique
  by_cases hmem : name ∈ namesOf t
  · rw [if_pos hmem]
    exact h
  · rw [if_neg hmem]
    cases t with
    | node n cs =>
      simp only [namesOf, namesOfList_append, namesOfList, List.append_nil] at h hmem ⊢
      simp only [List.nodup_cons, List.nodup_append, List.nodup_singleton,
        List.disjoint_singleton, List.mem_append, List.mem_singleton] at h ⊢
      obtain ⟨hn, hcs⟩ := h
      simp only [List.mem_cons] at hmem
      push_neg at hmem
      exact ⟨fun hc => hc.elim hn (fun he => hmem.1 he.symm), hcs,
        ⟨List.not_mem_nil name, List.nodup_nil⟩, hmem.2⟩

theorem applyOp_nodup (op : TreeOp) (t : TreeNode)
    (h : (namesOf t).Nodup) : (namesOf (applyOp op t)).Nodup := by
  cases op with
  | add name => exact treeAddUnique_nodup name t h
  | drag dn tn => exact ((drop_perm dn tn t).nodup_iff).mpr h

def noSelfAncestor (t : TreeNode) : Prop :=
  ∀ s ∈ subtrees t, s.name ∉ namesOfList s.children

theorem nodup_noSelfAncestor {t : TreeNode} (h : (namesOf t).Nodup) :
    noSelfAncestor t := by
  intro s hs
  have hsub := namesOf_sublist_of_mem_subtrees hs
  have hnd : (namesOf s).Nodup := h.sublist hsub
  cases s with
  | node n cs =>
    simp only [namesOf, List.nodup_cons] at hnd
    exact hnd.1

theorem applyOps_nodup (ops : List TreeOp) (t : TreeNode)
    (h : (namesOf t).Nodup) : (namesOf (applyOps ops t)).Nodup := by
  induction ops generalizing t with
  | nil => exact h
  | cons op ops ih => exact ih _ (applyOp_nodup op t h)

/-- C9: region-tree acyclicity is preserved by move.  First, the `drop`
handler's cycle guard: whenever `isDescendant(sourceNode, targetNode)` holds
(the target lies inside the dragged node's subtree) and the target is not the
root drop zone, `drop` returns the tree unchanged.  Second, over any sequence
of add and move operations started from a duplicate-free tree, the set of
names stays duplicate-free and no node is ever an ancestor of a node bearing
its own name. -/
theorem claim9_tree_acyclicity :
    (∀ (dn tn : String) (t : TreeNode), tn ≠ ROOT_DROP_ZONE →
      isDescendantO (findNode dn t) (findNode tn t) = true →
      drop (some dn) (some tn) t = t)
    ∧ (∀ (ops : List TreeOp) (t : TreeNode), (namesOf t).Nodup →
      (namesOf (applyOps ops t)).Nodup ∧ noSelfAncestor (applyOps ops t)) := by
  constructor
  · intro dn tn t htn hg
    unfold drop
    rw [if_neg (fun hc => htn (Option.some.inj hc))]
    show (if dn = tn then t
      else if isDescendantO (findNode dn t) (findNode tn t) then t
      else treeMove dn tn t) = t
    by_cases hdt : dn = tn
    · rw [if_pos hdt]
    · rw [if_neg hdt, if_pos hg]
  · intro ops t h
    have hnd := applyOps_nodup ops t h
    exact ⟨hnd, nodup_noSelfAncestor hnd⟩

/-- Demo tree for the C9 witness. -/
def demoT : TreeNode := .node "Root" [.node "a" [.node "b" []]]

/-- Witness for C9: moving `a` into its own child `b` is a no-op, and the
two-operation sequence add `c`, move `c` into `a` keeps names duplicate-free
and self-ancestor-free. -/
theorem claim9_witness :
    drop (some "a") (some "b") demoT = demoT
    ∧ ((namesOf (applyOps [TreeOp.add "c", TreeOp.drag (some "c") (some "a")] demoT)).Nodup
       ∧ noSelfAncestor (applyOps [TreeOp.add "c", TreeOp.drag (some "c") (some "a")] demoT)) :=
  ⟨claim9_tree_acyclicity.1 "a" "b" demoT (by decide) (by decide),
   claim9_tree_acyclicity.2 _ demoT (by decide)⟩

/-! ## C2: turn-start snapshot capture and the turn undo -/

/-- The scene fields that no branch of the placement loop body ever writes:
the turn-start snapshot, its pending flag, the active-layer clamp and the
grass layer. -/
def sameFrame (s t : Scene) : Prop :=
  s.turnStartGrid = t.turnStartGrid ∧
  s.shouldSaveTurnStart = t.shouldSaveTurnStart ∧
  s.activeLayerBounds = t.activeLayerBounds ∧
  s.grass = t.grass

theorem sameFrame_refl (s : Scene) : sameFrame s s := ⟨rfl, rfl, rfl, rfl⟩

theorem sameFrame_trans {s t u : Scene} (h1 : sameFrame s t) (h2 : sameFrame t u) :
    sameFrame s u :=
  ⟨h1.1.trans h2.1, h1.2.1.trans h2.2.1, h1.2.2.1.trans h2.2.2.1, h1.2.2.2.trans h2.2.2.2⟩

theorem processCellPlace_frame (an un : Bool) (px py : Int) (st1 : PlaceState)
    (v : Int) : sameFrame (processCellPlace an un px py st1 v).scene st1.scene := by
  unfold processCellPlace
  split
  · exact sameFrame_refl _
  · cases hact : activeResOf st1.scene px py v with
    | some named' => exact sameFrame_refl _
    | none =>
      cases hn : (if 0 ≤ v then placeInNamed un st1.scene.named px py v
          else NamedOutcome.nohit) with
      | placed named' => exact sameFrame_refl _
      | blocked => exact sameFrame_refl _
      | nohit =>
        show sameFrame (fallbackPlace un px py st1 v).scene st1.scene
        unfold fallbackPlace
        split
        · split
          · exact sameFrame_refl _
          · exact sameFrame_refl _
        · split
          · exact sameFrame_refl _
          · exact sameFrame_refl _

theorem processCellVal_frame (an un : Bool) (px py : Int) (st : PlaceState)
    (v : Int) : sameFrame (processCellVal an un px py st v).scene st.scene := by
  unfold processCellVal
  split
  · exact sameFrame_refl _
  · exact sameFrame_trans (processCellPlace_frame an un px py _ v)
      (by rw [countTile_scene]; exact sameFrame_refl _)

theorem processCell_frame (an un : Bool) (sx sy : Int) (grid : Buffer)
    (st : PlaceState) (p : Nat × Nat) :
    sameFrame (processCell an un sx sy grid st p).scene st.scene := by
  unfold processCell
  split
  · exact sameFrame_refl _
  · split
    · exact sameFrame_refl _
    · exact processCellVal_frame an un _ _ st _

theorem foldl_processCell_frame (an un : Bool) (sx sy : Int) (grid : Buffer) :
    ∀ (l : List (Nat × Nat)) (st : PlaceState),
      sameFrame ((l.foldl (processCell an un sx sy grid) st)).scene st.scene := by
  intro l
  induction l with
  | nil => intro st; exact sameFrame_refl _
  | cons p rest ih =>
    intro st
    exact sameFrame_trans (ih _) (processCell_frame an un sx sy grid st p)

/-- `resolveAnchor` either keeps the scene or merely clears the selection. -/
theorem resolveAnchor_cases (s : Scene) (wo : Bool) :
    (resolveAnchor s wo).1 = s ∨ (resolveAnchor s wo).1 = clearSelection s := by
  unfold resolveAnchor
  split
  · split
    · split
      · exact Or.inl rfl
      · exact Or.inr rfl
    · exact Or.inr rfl
  · exact Or.inl rfl

theorem snapshotGrid_clearSelection (s : Scene) :
    snapshotGrid (clearSelection s) = snapshotGrid s := rfl

theorem snapshotGrid_resolveAnchor (s : Scene) (wo : Bool) :
    snapshotGrid (resolveAnchor s wo).1 = snapshotGrid s := by
  rcases resolveAnchor_cases s wo with h | h <;> rw [h]
  exact snapshotGrid_clearSelection s

theorem resolveAnchor_frame (s : Scene) (wo : Bool) :
    sameFrame (resolveAnchor s wo).1 s := by
  rcases resolveAnchor_cases s wo with h | h <;> rw [h]
  · exact sameFrame_refl s
  · exact ⟨rfl, rfl, rfl, rfl⟩

theorem snapshotPhase_capture (s : Scene) (h : s.shouldSaveTurnStart = true) :
    (snapshotPhase s false).turnStartGrid = snapshotGrid s ∧
    (snapshotPhase s false).shouldSaveTurnStart = false := by
  unfold snapshotPhase
  rw [if_pos rfl, if_pos h]
  exact ⟨rfl, rfl⟩

theorem snapshotPhase_stable (s : Scene) (h : s.shouldSaveTurnStart = false)
    (an : Bool) :
    (snapshotPhase s an).turnStartGrid = s.turnStartGrid ∧
    (snapshotPhase s an).shouldSaveTurnStart = false := by
  unfold snapshotPhase
  cases an with
  | false =>
    rw [if_pos rfl, if_neg (by simp [h])]
    exact ⟨rfl, h⟩
  | true =>
    rw [if_neg (by decide)]
    exact ⟨rfl, h⟩

theorem snapshotPhase_acceptneg (s : Scene) : snapshotPhase s true = s := by
  unfold snapshotPhase
  rw [if_neg (by decide)]

/-- Both return paths of `putFeatureAtSelection` carry the turn-start
fields straight out of the snapshot phase. -/
theorem putFeature_turnStart (s : Scene) (grid : Buffer) (wo an un : Bool) :
    (putFeatureAtSelection s grid wo an un).1.turnStartGrid =
      (snapshotPhase (resolveAnchor s wo).1 an).turnStartGrid ∧
    (putFeatureAtSelection s grid wo an un).1.shouldSaveTurnStart =
      (snapshotPhase (resolveAnchor s wo).1 an).shouldSaveTurnStart := by
  unfold putFeatureAtSelection
  by_cases h0 : (if grid.length > 0 then ((grid.head?.map List.length).getD 0) else 0) = 0 ∨
      grid.length = 0
  · rw [if_pos h0]
    exact ⟨rfl, rfl⟩
  · rw [if_neg h0]
    have h := foldl_processCell_frame an un (resolveAnchor s wo).2.1
      (resolveAnchor s wo).2.2 grid
      (cellOffsets grid.length
        (if grid.length > 0 then ((grid.head?.map List.length).getD 0) else 0))
      ⟨snapshotPhase (resolveAnchor s wo).1 an, [], 0, 0⟩
    exact ⟨h.1, h.2.1⟩

theorem layerGetC_in {g : Grid} {x y : Int} (h : inCanvasP x y) :
    layerGetC g x y = if g x y = -1 then none else some (g x y) := by
  unfold inCanvasP at h
  unfold layerGetC layerGet
  rw [if_pos h]

theorem layerGetC_out {g : Grid} {x y : Int} (h : ¬inCanvasP x y) :
    layerGetC g x y = none := by
  unfold inCanvasP at h
  unfold layerGetC layerGet
  rw [if_neg h]

theorem bufGet_snapshotGrid (c : Scene) {y x : Nat} (hy : y < 25) (hx : x < 40) :
    bufGet (snapshotGrid c) y x = some (snapshotCell c (x : Int) (y : Int)) := by
  unfold bufGet snapshotGrid
  rw [List.get?_map, List.get?_range hy]
  simp only [Option.map_some', Option.some_bind]
  rw [List.get?_map, List.get?_range hx]
  rfl

theorem snapshotCell_noNamed {c : Scene} (h : c.named = []) (x y : Int) :
    snapshotCell c x y = match layerGetC c.feature x y with
      | some v => v
      | none => -1 := by
  unfold snapshotCell
  rw [h]
  rfl

theorem snapshotCell_ne_m2 {c : Scene} (hn : c.named = [])
    (hm2 : ∀ a b : Int, c.feature a b ≠ -2) (x y : Int) :
    snapshotCell c x y ≠ -2 := by
  rw [snapshotCell_noNamed hn]
  cases hL : layerGetC c.feature x y with
  | none => decide
  | some v =>
    obtain ⟨_, hv, _⟩ := layerGetC_some_iff.mp hL
    show v ≠ -2
    exact hv ▸ hm2 x y

theorem mem_cellOffsets {gh gw : Nat} {p : Nat × Nat} :
    p ∈ cellOffsets gh gw ↔ p.1 < gh ∧ p.2 < gw := by
  obtain ⟨a, b⟩ := p
  unfold cellOffsets
  simp only [List.mem_bind, List.mem_map, List.mem_range, Prod.mk.injEq]
  constructor
  · rintro ⟨y, hy, x, hx, rfl, rfl⟩
    exact ⟨hy, hx⟩
  · rintro ⟨h1, h2⟩
    exact ⟨a, h1, b, h2, rfl, rfl⟩

theorem cover_cellOffsets {a b : Int} (h : inCanvasP a b) :
    ∃ p ∈ cellOffsets 25 40, (p.2 : Int) = a ∧ (p.1 : Int) = b := by
  unfold inCanvasP CANVAS_WIDTH CANVAS_HEIGHT at h
  obtain ⟨h1, h2, h3, h4⟩ := h
  refine ⟨(b.toNat, a.toNat), mem_cellOffsets.mpr ⟨?_, ?_⟩, ?_, ?_⟩ <;> omega

theorem cellBroken_congr {f g : Grid}
    (hL : ∀ a b : Int, layerGetC f a b = layerGetC g a b) (x y : Int) :
    cellBroken f x y = cellBroken g x y := by
  unfold cellBroken
  rw [hL x y]
  cases layerGetC g x y with
  | none => rfl
  | some t =>
    show (match rulesFor t with
        | none => false
        | some rules => rules.any (ruleViolated f x y)) =
      (match rulesFor t with
        | none => false
        | some rules => rules.any (ruleViolated g x y))
    cases rulesFor t with
    | none => rfl
    | some rules =>
      show rules.any (ruleViolated f x y) = rules.any (ruleViolated g x y)
      have hfun : ruleViolated f x y = ruleViolated g x y := by
        funext r
        unfold ruleViolated
        rw [hL]
      rw [hfun]

theorem flatCell_noNamed {s : Scene} (h : s.named = []) (x y : Int) :
    flatCell s x y = match layerGetC s.feature x y with
      | some v => v
      | none => match layerGetC s.grass x y with
        | some g => g
        | none => -1 := by
  unfold flatCell
  rw [h]
  rfl

theorem snapshotGrid_length (c : Scene) : (snapshotGrid c).length = 25 := by
  unfold snapshotGrid
  rw [List.length_map, List.length_range]

theorem snapshotGrid_width (c : Scene) :
    (((snapshotGrid c).head?.map List.length).getD 0) = 40 := by
  unfold snapshotGrid
  rw [List.head?_map]
  have h : (List.range 25).head? = some 0 := rfl
  rw [h]
  simp only [Option.map_some', Option.getD_some, List.length_map, List.length_range]

/-- With no named layers the active-layer branch can never fire, whatever
the clamp: `placeInActive` has nothing to search. -/
theorem activeResOf_noNamed {s : Scene} (h : s.named = []) (px py v : Int) :
    activeResOf s px py v = none := by
  unfold activeResOf
  cases hb : s.activeLayerBounds with
  | none => rfl
  | some b =>
    show (if 0 ≤ v ∧ containsB b px py then placeInActive s.named b px py v
      else none) = none
    rw [h]
    split
    · rfl
    · rfl

/-- No branch of the placement body can create a named layer: an empty
`namedLayers` list stays empty. -/
theorem processCellPlace_noNamed {an un : Bool} {px py v : Int} {st1 : PlaceState}
    (h : st1.scene.named = []) :
    (processCellPlace an un px py st1 v).scene.named = [] := by
  unfold processCellPlace
  split
  · show clearNamedAll st1.scene.named px py = []
    rw [h]
    rfl
  · rw [activeResOf_noNamed h]
    have hpn : (if 0 ≤ v then placeInNamed un st1.scene.named px py v
        else NamedOutcome.nohit) = NamedOutcome.nohit := by
      rw [h]
      split
      · rfl
      · rfl
    rw [hpn]
    show (fallbackPlace un px py st1 v).scene.named = []
    unfold fallbackPlace
    split
    · split
      · show (if un = true then clearNamedAll st1.scene.named px py
            else st1.scene.named) = []
        split
        · rw [h]
          rfl
        · exact h
      · exact h
    · split
      · show (if un = true then clearNamedAll st1.scene.named px py
            else st1.scene.named) = []
        split
        · rw [h]
          rfl
        · exact h
      · exact h

theorem processCellVal_noNamed {an un : Bool} {px py v : Int} {st : PlaceState}
    (h : st.scene.named = []) :
    (processCellVal an un px py st v).scene.named = [] := by
  unfold processCellVal
  split
  · exact h
  · refine processCellPlace_noNamed ?_
    rw [countTile_scene]
    exact h

theorem processCell_noNamed {an un : Bool} {sx sy : Int} {grid : Buffer}
    {st : PlaceState} {p : Nat × Nat} (h : st.scene.named = []) :
    (processCell an un sx sy grid st p).scene.named = [] := by
  unfold processCell
  split
  · exact h
  · split
    · exact h
    · exact processCellVal_noNamed h

theorem foldl_processCell_noNamed {an un : Bool} {sx sy : Int} {grid : Buffer} :
    ∀ (l : List (Nat × Nat)) (st : PlaceState), st.scene.named = [] →
      ((l.foldl (processCell an un sx sy grid) st)).scene.named = []
  | [], _, h => h
  | _ :: rest, _, h =>
    foldl_processCell_noNamed rest _ (processCell_noNamed h)

theorem snapshotPhase_sel (s : Scene) (an : Bool) :
    (snapshotPhase s an).named = s.named ∧ (snapshotPhase s an).grass = s.grass := by
  unfold snapshotPhase
  split
  · split
    · exact ⟨rfl, rfl⟩
    · exact ⟨rfl, rfl⟩
  · exact ⟨rfl, rfl⟩

theorem resolveAnchor_sel (s : Scene) (wo : Bool) :
    (resolveAnchor s wo).1.named = s.named ∧ (resolveAnchor s wo).1.grass = s.grass := by
  rcases resolveAnchor_cases s wo with h | h
  · rw [h]
    exact ⟨rfl, rfl⟩
  · rw [h]
    exact ⟨rfl, rfl⟩

/-- A placement call (any flags) neither creates a named layer nor touches
the grass layer. -/
theorem putFeature_named_grass (s : Scene) (grid : Buffer) (wo an un : Bool)
    (h : s.named = []) :
    (putFeatureAtSelection s grid wo an un).1.named = [] ∧
    (putFeatureAtSelection s grid wo an un).1.grass = s.grass := by
  unfold putFeatureAtSelection
  by_cases h0 : (if grid.length > 0 then ((grid.head?.map List.length).getD 0) else 0) = 0 ∨
      grid.length = 0
  · rw [if_pos h0]
    refine ⟨?_, ?_⟩
    · show (snapshotPhase (resolveAnchor s wo).1 an).named = []
      rw [(snapshotPhase_sel _ an).1, (resolveAnchor_sel s wo).1]
      exact h
    · show (snapshotPhase (resolveAnchor s wo).1 an).grass = s.grass
      rw [(snapshotPhase_sel _ an).2]
      exact (resolveAnchor_sel s wo).2
  · rw [if_neg h0]
    refine ⟨?_, ?_⟩
    · show (placementRun s grid wo an un).scene.named = []
      unfold placementRun
      refine foldl_processCell_noNamed _ _ ?_
      show (snapshotPhase (resolveAnchor s wo).1 an).named = []
      rw [(snapshotPhase_sel _ an).1, (resolveAnchor_sel s wo).1]
      exact h
    · show (placementRun s grid wo an un).scene.grass = s.grass
      unfold placementRun
      refine (foldl_processCell_frame an un _ _ grid _ _).2.2.2.trans ?_
      show (snapshotPhase (resolveAnchor s wo).1 an).grass = s.grass
      rw [(snapshotPhase_sel _ an).2]
      exact (resolveAnchor_sel s wo).2

/-- A turn's worth of further placement calls after the first: each entry
is a buffer with its `worldOverride` and `acceptExplicitClear` flags, run
with `isUndo` false. -/
def applyTurnCalls : List (Buffer × Bool × Bool) → Scene → Scene
  | [], s => s
  | k :: ks, s => applyTurnCalls ks (putFeatureAtSelection s k.1 k.2.1 k.2.2 false).1

/-- Non-undo calls after the capture keep the turn invariant: no named
layers, the grass layer, the captured snapshot and the lowered flag all
survive every further call of the turn. -/
theorem applyTurnCalls_inv (B : Buffer) (g0 : Grid) :
    ∀ (ks : List (Buffer × Bool × Bool)) (s : Scene),
    s.named = [] → s.grass = g0 → s.turnStartGrid = B →
    s.shouldSaveTurnStart = false →
    (applyTurnCalls ks s).named = [] ∧ (applyTurnCalls ks s).grass = g0 ∧
    (applyTurnCalls ks s).turnStartGrid = B ∧
    (applyTurnCalls ks s).shouldSaveTurnStart = false
  | [], _, h1, h2, h3, h4 => ⟨h1, h2, h3, h4⟩
  | k :: ks, s, h1, h2, h3, h4 => by
    have hng := putFeature_named_grass s k.1 k.2.1 k.2.2 false h1
    have hts := putFeature_turnStart s k.1 k.2.1 k.2.2 false
    have hra := resolveAnchor_frame s k.2.1
    have hst := snapshotPhase_stable (resolveAnchor s k.2.1).1 (hra.2.1.trans h4) k.2.2
    exact applyTurnCalls_inv B g0 ks _ hng.1 (hng.2.trans h2)
      (hts.1.trans (hst.1.trans (hra.1.trans h3))) (hts.2.trans hst.2)

/-- The value the undo run leaves in the feature layer at a canvas cell:
the snapshot value, except that a `-2` snapshot cell goes through the
explicit-clear branch (the undo call sets `acceptExplicitClear`) and is
stored as `-1`. -/
def undoWriteVal (c : Scene) (a b : Int) : Int :=
  if snapshotCell c a b = -2 then -1 else snapshotCell c a b

/-- The `changed` list accumulated by the full undo run: every canvas cell,
in visiting order. -/
def undoCH : List (Int × Int) :=
  (cellOffsets 25 40).map fun p => ((p.2 : Int), (p.1 : Int))

/-- One step of the undo run (`acceptneg` and `undoing` both `true`, anchor
`(0,0)`, buffer the turn-start snapshot of a scene `c`) on a state with no
named layers: a `-2` snapshot cell takes the explicit-clear branch, every
other cell is handled by the feature-layer fallback, which writes the
snapshot value unconditionally (`undoing` short-circuits the priority
test). -/
theorem undo_step_eq (c : Scene) (st : PlaceState) (p : Nat × Nat)
    (hy : p.1 < 25) (hx : p.2 < 40)
    (hnamed : st.scene.named = []) :
    processCell true true 0 0 (snapshotGrid c) st p =
      if snapshotCell c (p.2 : Int) (p.1 : Int) = -2 then
        clearResult (countTile true st (snapshotCell c (p.2 : Int) (p.1 : Int)))
          (0 + (p.2 : Int)) (0 + (p.1 : Int))
      else
        fallbackWrite true (0 + (p.2 : Int)) (0 + (p.1 : Int))
          (countTile true st (snapshotCell c (p.2 : Int) (p.1 : Int)))
          (snapshotCell c (p.2 : Int) (p.1 : Int)) := by
  obtain ⟨py, px⟩ := p
  have hy' : py < 25 := hy
  have hx' : px < 40 := hx
  unfold processCell
  have hcanvas : inCanvasP (0 + ((py, px).2 : Int)) (0 + ((py, px).1 : Int)) := by
    unfold inCanvasP CANVAS_WIDTH CANVAS_HEIGHT
    refine ⟨?_, ?_, ?_, ?_⟩ <;> omega
  rw [if_neg (not_not_intro hcanvas)]
  have hbuf : bufGet (snapshotGrid c) (py, px).1 (py, px).2 =
      some (snapshotCell c (px : Int) (py : Int)) :=
    bufGet_snapshotGrid c hy' hx'
  rw [hbuf]
  show processCellVal true true (0 + (px : Int)) (0 + (py : Int)) st
      (snapshotCell c (px : Int) (py : Int)) = _
  unfold processCellVal
  rw [if_neg (fun h => absurd h.2 (by decide))]
  unfold processCellPlace
  by_cases hv2 : snapshotCell c (px : Int) (py : Int) = -2
  · rw [if_pos ⟨rfl, hv2⟩, if_pos hv2]
  · rw [if_neg hv2, if_neg (fun h => hv2 h.2)]
    have hact' : activeResOf
        (countTile true st (snapshotCell c (px : Int) (py : Int))).scene
        (0 + (px : Int)) (0 + (py : Int)) (snapshotCell c (px : Int) (py : Int)) = none := by
      refine activeResOf_noNamed ?_ _ _ _
      rw [countTile_scene]
      exact hnamed
    rw [hact']
    show (match (if 0 ≤ snapshotCell c (px : Int) (py : Int) then
        placeInNamed true
          (countTile true st (snapshotCell c (px : Int) (py : Int))).scene.named
          (0 + (px : Int)) (0 + (py : Int)) (snapshotCell c (px : Int) (py : Int))
        else NamedOutcome.nohit) with
      | NamedOutcome.placed named' =>
        placedResult (countTile true st (snapshotCell c (px : Int) (py : Int))) named'
          (0 + (px : Int)) (0 + (py : Int))
      | NamedOutcome.blocked =>
        skippedResult (countTile true st (snapshotCell c (px : Int) (py : Int)))
      | NamedOutcome.nohit =>
        fallbackPlace true (0 + (px : Int)) (0 + (py : Int))
          (countTile true st (snapshotCell c (px : Int) (py : Int)))
          (snapshotCell c (px : Int) (py : Int))) = _
    have hpn : (if 0 ≤ snapshotCell c (px : Int) (py : Int) then
        placeInNamed true
          (countTile true st (snapshotCell c (px : Int) (py : Int))).scene.named
          (0 + (px : Int)) (0 + (py : Int)) (snapshotCell c (px : Int) (py : Int))
        else NamedOutcome.nohit) = NamedOutcome.nohit := by
      rw [countTile_scene, hnamed]
      split
      · rfl
      · rfl
    rw [hpn]
    show fallbackPlace true (0 + (px : Int)) (0 + (py : Int))
        (countTile true st (snapshotCell c (px : Int) (py : Int)))
        (snapshotCell c (px : Int) (py : Int)) = _
    unfold fallbackPlace
    rw [if_pos (show allowOverwriting = true from rfl), if_pos (Or.inr rfl)]

theorem undo_step_fields (c : Scene) (st : PlaceState) (p : Nat × Nat)
    (hy : p.1 < 25) (hx : p.2 < 40)
    (hnamed : st.scene.named = []) :
    (processCell true true 0 0 (snapshotGrid c) st p).scene.named = [] ∧
    (processCell true true 0 0 (snapshotGrid c) st p).scene.grass = st.scene.grass ∧
    (processCell true true 0 0 (snapshotGrid c) st p).changed =
      st.changed ++ [((p.2 : Int), (p.1 : Int))] ∧
    ∀ a b : Int, (processCell true true 0 0 (snapshotGrid c) st p).scene.feature a b =
      putTileC st.scene.feature (p.2 : Int) (p.1 : Int)
        (undoWriteVal c (p.2 : Int) (p.1 : Int)) a b := by
  rw [undo_step_eq c st p hy hx hnamed]
  by_cases hv2 : snapshotCell c (p.2 : Int) (p.1 : Int) = -2
  · rw [if_pos hv2]
    refine ⟨?_, ?_, ?_, ?_⟩
    · show clearNamedAll
          (countTile true st (snapshotCell c (p.2 : Int) (p.1 : Int))).scene.named
          (0 + (p.2 : Int)) (0 + (p.1 : Int)) = []
      rw [countTile_scene, hnamed]
      rfl
    · show (countTile true st (snapshotCell c (p.2 : Int) (p.1 : Int))).scene.grass =
        st.scene.grass
      rw [countTile_scene]
    · show (countTile true st (snapshotCell c (p.2 : Int) (p.1 : Int))).changed ++
          [(0 + (p.2 : Int), 0 + (p.1 : Int))] =
        st.changed ++ [((p.2 : Int), (p.1 : Int))]
      rw [countTile_changed, zero_add, zero_add]
    · intro a b
      show putTileC (countTile true st (snapshotCell c (p.2 : Int) (p.1 : Int))).scene.feature
          (0 + (p.2 : Int)) (0 + (p.1 : Int)) (-1) a b =
        putTileC st.scene.feature (p.2 : Int) (p.1 : Int)
          (undoWriteVal c (p.2 : Int) (p.1 : Int)) a b
      unfold undoWriteVal
      rw [countTile_scene, zero_add, zero_add, if_pos hv2]
  · rw [if_neg hv2]
    refine ⟨?_, ?_, ?_, ?_⟩
    · show (if true = true then
          clearNamedAll (countTile true st (snapshotCell c (p.2 : Int) (p.1 : Int))).scene.named
            (0 + (p.2 : Int)) (0 + (p.1 : Int))
        else (countTile true st (snapshotCell c (p.2 : Int) (p.1 : Int))).scene.named) = []
      rw [if_pos rfl, countTile_scene, hnamed]
      rfl
    · show (countTile true st (snapshotCell c (p.2 : Int) (p.1 : Int))).scene.grass =
        st.scene.grass
      rw [countTile_scene]
    · show (countTile true st (snapshotCell c (p.2 : Int) (p.1 : Int))).changed ++
          [(0 + (p.2 : Int), 0 + (p.1 : Int))] =
        st.changed ++ [((p.2 : Int), (p.1 : Int))]
      rw [countTile_changed, zero_add, zero_add]
    · intro a b
      show putTileC (countTile true st (snapshotCell c (p.2 : Int) (p.1 : Int))).scene.feature
          (0 + (p.2 : Int)) (0 + (p.1 : Int)) (snapshotCell c (p.2 : Int) (p.1 : Int)) a b =
        putTileC st.scene.feature (p.2 : Int) (p.1 : Int)
          (undoWriteVal c (p.2 : Int) (p.1 : Int)) a b
      unfold undoWriteVal
      rw [countTile_scene, zero_add, zero_add, if_neg hv2]

/-- The whole undo run over any cell list inside the canvas: the scene
keeps no named layers and its grass layer, every visited cell is recorded
as changed, and the feature layer holds the (sanitised) snapshot value at
every visited cell and its old value elsewhere. -/
theorem undo_loop_char (c : Scene) :
    ∀ (l : List (Nat × Nat)) (st : PlaceState),
    (∀ p ∈ l, p.1 < 25 ∧ p.2 < 40) →
    st.scene.named = [] →
    (l.foldl (processCell true true 0 0 (snapshotGrid c)) st).scene.named = [] ∧
    (l.foldl (processCell true true 0 0 (snapshotGrid c)) st).scene.grass = st.scene.grass ∧
    (l.foldl (processCell true true 0 0 (snapshotGrid c)) st).changed =
      st.changed ++ l.map (fun p => ((p.2 : Int), (p.1 : Int))) ∧
    (∀ a b : Int,
      ((∃ p ∈ l, (p.2 : Int) = a ∧ (p.1 : Int) = b) →
        (l.foldl (processCell true true 0 0 (snapshotGrid c)) st).scene.feature a b =
          undoWriteVal c a b) ∧
      ((∀ p ∈ l, ¬((p.2 : Int) = a ∧ (p.1 : Int) = b)) →
        (l.foldl (processCell true true 0 0 (snapshotGrid c)) st).scene.feature a b =
          st.scene.feature a b))
  | [], st, hmem, hnamed =>
    ⟨hnamed, rfl, by rw [List.map_nil, List.append_nil]; rfl, fun a b =>
      ⟨(by rintro ⟨p, hp, _⟩; cases hp), fun _ => rfl⟩⟩
  | q :: rest, st, hmem, hnamed => by
    have hq := hmem q (List.mem_cons_self q rest)
    have hstep := undo_step_fields c st q hq.1 hq.2 hnamed
    have ih := undo_loop_char c rest
      (processCell true true 0 0 (snapshotGrid c) st q)
      (fun p hp => hmem p (List.mem_cons_of_mem q hp)) hstep.1
    simp only [List.foldl_cons]
    have hqc : inCanvasP (q.2 : Int) (q.1 : Int) := by
      unfold inCanvasP CANVAS_WIDTH CANVAS_HEIGHT
      refine ⟨?_, ?_, ?_, ?_⟩ <;> omega
    refine ⟨ih.1, ih.2.1.trans hstep.2.1, ?_, fun a b => ⟨?_, ?_⟩⟩
    · rw [ih.2.2.1, hstep.2.2.1, List.map_cons, List.append_assoc]
      rfl
    · rintro ⟨p, hp, hpa, hpb⟩
      rcases List.mem_cons.mp hp with rfl | hmem'
      · by_cases hcov : ∃ p ∈ rest, (p.2 : Int) = a ∧ (p.1 : Int) = b
        · exact (ih.2.2.2 a b).1 hcov
        · push_neg at hcov
          rw [(ih.2.2.2 a b).2 (fun p' hp' hc => hcov p' hp' hc.1 hc.2),
            hstep.2.2.2 a b, putTileC_eval,
            if_pos ⟨⟨hpa.symm, hpb.symm⟩, hqc⟩, hpa, hpb]
      · exact (ih.2.2.2 a b).1 ⟨p, hmem', hpa, hpb⟩
    · intro hnone
      rw [(ih.2.2.2 a b).2
          (fun p' hp' => hnone p' (List.mem_cons_of_mem q hp')),
        hstep.2.2.2 a b, putTileC_eval,
        if_neg (fun hcc => hnone q (List.mem_cons_self q rest)
          ⟨hcc.1.1.symm, hcc.1.2.symm⟩)]

/-- `markNewTurn` only sets a flag: the flattened map is unchanged. -/
theorem flatten_markNewTurn (s : Scene) :
    GetFlattenedTileMap (markNewTurn s) = GetFlattenedTileMap s := rfl

theorem flatCell_markNewTurn (s : Scene) (x y : Int) :
    flatCell (markNewTurn s) x y = flatCell s x y := rfl

set_option maxRecDepth 4000 in
set_option maxHeartbeats 2000000 in
/-- The whole turn undo, reduced to the loop over the full canvas: for any
scene whose turn-start snapshot is `snapshotGrid c`, the undo runs the
placement engine over every canvas cell with all three flags set and then
prunes over the recorded cells. -/
theorem fullUndo_run (u c : Scene) (hB : u.turnStartGrid = snapshotGrid c) :
    fullUndoToolCall u =
      (markNewTurn (pruneBrokenTreesScene
        ((cellOffsets 25 40).foldl (processCell true true 0 0 (snapshotGrid c))
          ⟨u, [], 0, 0⟩).scene
        ((cellOffsets 25 40).foldl (processCell true true 0 0 (snapshotGrid c))
          ⟨u, [], 0, 0⟩).changed), true) := by
  unfold fullUndoToolCall
  rw [hB, if_neg (by rw [snapshotGrid_length]; decide)]
  unfold putFeatureAtSelection
  rw [snapshotGrid_length, snapshotGrid_width, if_pos (by decide : (25 : Nat) > 0),
    if_neg (by decide : ¬((40 : Nat) = 0 ∨ (25 : Nat) = 0))]
  unfold placementRun
  have hco : cellOffsets (snapshotGrid c).length
      (if (snapshotGrid c).length > 0 then
        (((snapshotGrid c).head?.map List.length).getD 0) else 0) =
      cellOffsets 25 40 := by
    rw [snapshotGrid_length, snapshotGrid_width, if_pos (by decide : (25 : Nat) > 0)]
  have hsp : snapshotPhase (resolveAnchor u true).1 true = u :=
    snapshotPhase_acceptneg _
  have h21 : (resolveAnchor u true).2.1 = 0 := rfl
  have h22 : (resolveAnchor u true).2.2 = 0 := rfl
  rw [hco, hsp, h21, h22]

set_option maxRecDepth 4000 in
set_option maxHeartbeats 2000000 in
/-- The flattened value after the turn undo, at any canvas cell, for an
undo-time scene with no named layers: the sanitised snapshot value, unless
the post-undo prune clears the cell, with empty cells falling through to
the grass layer. -/
theorem undo_flatten_pointwise (u c : Scene) (hN : u.named = [])
    (hB : u.turnStartGrid = snapshotGrid c) (x y : Int) (hxy : inCanvasP x y) :
    flatCell (fullUndoToolCall u).1 x y =
      (if (if inPruneBox undoCH x y ∧
            cellBroken (fun a b => undoWriteVal c a b) x y = true then (-1 : Int)
          else undoWriteVal c x y) = -1 then
        (match layerGetC u.grass x y with
         | some g => g
         | none => -1)
      else (if inPruneBox undoCH x y ∧
            cellBroken (fun a b => undoWriteVal c a b) x y = true then (-1 : Int)
          else undoWriteVal c x y)) := by
  rw [show (fullUndoToolCall u).1 =
      markNewTurn (pruneBrokenTreesScene
        ((cellOffsets 25 40).foldl (processCell true true 0 0 (snapshotGrid c))
          ⟨u, [], 0, 0⟩).scene
        ((cellOffsets 25 40).foldl (processCell true true 0 0 (snapshotGrid c))
          ⟨u, [], 0, 0⟩).changed) from congrArg Prod.fst (fullUndo_run u c hB)]
  have hrun := undo_loop_char c (cellOffsets 25 40) ⟨u, [], 0, 0⟩
    (fun p hp => mem_cellOffsets.mp hp) hN
  set F := (cellOffsets 25 40).foldl (processCell true true 0 0 (snapshotGrid c))
    ⟨u, [], 0, 0⟩ with hF
  have hch : F.changed = undoCH := by
    rw [hrun.2.2.1]
    show [] ++ _ = _
    rw [List.nil_append]
    rfl
  have hLW : ∀ a b : Int, layerGetC F.scene.feature a b =
      layerGetC (fun a' b' => undoWriteVal c a' b') a b := by
    intro a b
    by_cases hc : inCanvasP a b
    · have hfa : F.scene.feature a b = undoWriteVal c a b :=
        (hrun.2.2.2 a b).1 (cover_cellOffsets hc)
      rw [layerGetC_in hc, layerGetC_in hc, hfa]
    · rw [layerGetC_out hc, layerGetC_out hc]
  have hcb : cellBroken F.scene.feature x y =
      cellBroken (fun a b => undoWriteVal c a b) x y := cellBroken_congr hLW x y
  have hfx : F.scene.feature x y = undoWriteVal c x y :=
    (hrun.2.2.2 x y).1 (cover_cellOffsets hxy)
  rw [flatCell_markNewTurn,
    flatCell_noNamed (show (pruneBrokenTreesScene F.scene F.changed).named = []
      from hrun.1)]
  have hWx : pruneBrokenTrees F.scene.feature F.changed x y =
      (if inPruneBox undoCH x y ∧
          cellBroken (fun a b => undoWriteVal c a b) x y = true then (-1 : Int)
        else undoWriteVal c x y) := by
    rw [prune_eval, hch, hcb, hfx]
  rw [show layerGetC (pruneBrokenTreesScene F.scene F.changed).feature x y =
      (if (if inPruneBox undoCH x y ∧
            cellBroken (fun a b => undoWriteVal c a b) x y = true then (-1 : Int)
          else undoWriteVal c x y) = -1 then none
        else some (if inPruneBox undoCH x y ∧
            cellBroken (fun a b => undoWriteVal c a b) x y = true then (-1 : Int)
          else undoWriteVal c x y)) from by
    rw [show layerGetC (pruneBrokenTreesScene F.scene F.changed).feature x y =
        layerGetC (pruneBrokenTrees F.scene.feature F.changed) x y from rfl,
      layerGetC_in hxy, hWx]]
  by_cases hw : (if inPruneBox undoCH x y ∧
      cellBroken (fun a b => undoWriteVal c a b) x y = true then (-1 : Int)
    else undoWriteVal c x y) = -1
  · rw [if_pos hw, if_pos hw]
    show (match layerGetC (pruneBrokenTreesScene F.scene F.changed).grass x y with
      | some g => g
      | none => -1) = _
    rw [show (pruneBrokenTreesScene F.scene F.changed).grass = u.grass from hrun.2.1]
  · rw [if_neg hw, if_neg hw]

set_option maxRecDepth 4000 in
set_option maxHeartbeats 2000000 in
/-- The turn undo on a scene `u` with no named layers, whose turn-start
snapshot was captured on a named-layer-free scene `c` with no `-2`
sentinels and no broken tree cells and whose grass layer is unchanged
since the capture: the undo succeeds and the flattened map is exactly the
flattened map of the capture-time scene. -/
theorem undo_restores (u c : Scene)
    (hN : u.named = [])
    (hB : u.turnStartGrid = snapshotGrid c) (hCn : c.named = [])
    (hg : u.grass = c.grass)
    (hm2 : ∀ x y : Int, c.feature x y ≠ -2)
    (hclean : ∀ x y : Int, cellBroken c.feature x y = false) :
    (fullUndoToolCall u).2 = true ∧
    GetFlattenedTileMap (fullUndoToolCall u).1 = GetFlattenedTileMap c := by
  have hval : ∀ a b : Int, undoWriteVal c a b = snapshotCell c a b := by
    intro a b
    unfold undoWriteVal
    rw [if_neg (snapshotCell_ne_m2 hCn hm2 a b)]
  have hLc : ∀ a b : Int, layerGetC (fun a' b' => undoWriteVal c a' b') a b =
      layerGetC c.feature a b := by
    intro a b
    by_cases hc : inCanvasP a b
    · rw [layerGetC_in hc]
      show (if undoWriteVal c a b = -1 then none else some (undoWriteVal c a b)) = _
      rw [hval a b, snapshotCell_noNamed hCn]
      cases hLc : layerGetC c.feature a b with
      | none => simp
      | some v =>
        obtain ⟨_, _, hne⟩ := layerGetC_some_iff.mp hLc
        simp [hne]
    · rw [layerGetC_out hc, layerGetC_out hc]
  have hbroken : ∀ a b : Int,
      cellBroken (fun a' b' => undoWriteVal c a' b') a b = false :=
    fun a b => (cellBroken_congr hLc a b).trans (hclean a b)
  refine ⟨congrArg Prod.snd (fullUndo_run u c hB), ?_⟩
  unfold GetFlattenedTileMap
  rw [List.map_eq_map_iff]
  intro y hy
  rw [List.map_eq_map_iff]
  intro x hx
  have hxb := List.mem_range.mp hx
  have hyb := List.mem_range.mp hy
  have hxy : inCanvasP (x : Int) (y : Int) := by
    unfold inCanvasP CANVAS_WIDTH CANVAS_HEIGHT
    refine ⟨?_, ?_, ?_, ?_⟩ <;> omega
  rw [undo_flatten_pointwise u c hN hB (x : Int) (y : Int) hxy,
    flatCell_noNamed hCn]
  rw [show (if inPruneBox undoCH (x : Int) (y : Int) ∧
        cellBroken (fun a b => undoWriteVal c a b) (x : Int) (y : Int) = true
      then (-1 : Int) else undoWriteVal c (x : Int) (y : Int)) =
      undoWriteVal c (x : Int) (y : Int) from
    if_neg (fun hcc => by rw [hbroken] at hcc; exact absurd hcc.2 (by decide)),
    hval, snapshotCell_noNamed hCn, hg]
  cases hLc : layerGetC c.feature (x : Int) (y : Int) with
  | none => rfl
  | some v =>
    obtain ⟨_, _, hne⟩ := layerGetC_some_iff.mp hLc
    rw [if_neg hne]

/-- A whole turn, fully general except that the starting scene has no named
layers: `markNewTurn`, a first capture call (`acceptExplicitClear` unset,
any buffer and `worldOverride`), any further non-undo calls, then the turn
undo.  Hypotheses on the pre-turn scene only: no named layers, no `-2`
sentinel in the feature layer, no broken tree cell in the feature layer.
Grass invariance and the absence of an active-layer write (impossible with
no named layers) are derived, not assumed. -/
theorem undo_turn_restores (s0 : Scene) (g1 : Buffer) (wo1 : Bool)
    (ks : List (Buffer × Bool × Bool))
    (hN : s0.named = [])
    (hm2 : ∀ x y : Int, s0.feature x y ≠ -2)
    (hclean : ∀ x y : Int, cellBroken s0.feature x y = false) :
    (fullUndoToolCall (applyTurnCalls ks
        (putFeatureAtSelection (markNewTurn s0) g1 wo1 false false).1)).2 = true ∧
    GetFlattenedTileMap (fullUndoToolCall (applyTurnCalls ks
        (putFeatureAtSelection (markNewTurn s0) g1 wo1 false false).1)).1 =
      GetFlattenedTileMap s0 := by
  have hN1 : (markNewTurn s0).named = [] := hN
  have hng := putFeature_named_grass (markNewTurn s0) g1 wo1 false false hN1
  have hts := putFeature_turnStart (markNewTurn s0) g1 wo1 false false
  have hra := resolveAnchor_frame (markNewTurn s0) wo1
  have hcap := snapshotPhase_capture (resolveAnchor (markNewTurn s0) wo1).1 hra.2.1
  have hinv := applyTurnCalls_inv (snapshotGrid s0) s0.grass ks
    (putFeatureAtSelection (markNewTurn s0) g1 wo1 false false).1
    hng.1 hng.2
    (hts.1.trans (hcap.1.trans (snapshotGrid_resolveAnchor (markNewTurn s0) wo1)))
    (hts.2.trans hcap.2)
  exact undo_restores _ s0 hinv.1 hinv.2.2.1 hN hinv.2.1 hm2 hclean

/-- Necessity demo for the no-named-layer hypothesis: a complete green tree
`4/16` in the feature layer (prune-clean and sentinel-free, so the other
hypotheses of the restore theorem hold) plus an empty 1×1 named layer over
the bottom cell `(5,6)`.  A turn that explicit-clears `(5,6)` leaves the
undo re-placing the bottom into the named layer while the top goes back
into the feature layer, where the prune pass deletes it as orphaned. -/
def halfTreeScene : Scene :=
  { baseScene (fun x y => if x = 5 ∧ y = 5 then 4
      else if x = 5 ∧ y = 6 then 16 else -1) with
    named := [⟨"box", ⟨5, 6, 1, 1⟩, fun _ _ => -1⟩] }

/-- A buffer that explicit-clears exactly the world cell `(5,6)` when
anchored at the origin. -/
def clear56Buffer : Buffer :=
  [[-1, -1, -1, -1, -1, -1], [-1, -1, -1, -1, -1, -1], [-1, -1, -1, -1, -1, -1],
   [-1, -1, -1, -1, -1, -1], [-1, -1, -1, -1, -1, -1], [-1, -1, -1, -1, -1, -1],
   [-1, -1, -1, -1, -1, -2]]

/-- Necessity demo for the prune-clean hypothesis: a lone yellow tree
bottom `15` at `(9,9)` (named-layer-free and sentinel-free, but broken). -/
def loneBottomScene : Scene :=
  baseScene (fun x y => if x = 9 ∧ y = 9 then 15 else -1)

/-- Necessity demo for the sentinel-free hypothesis: a stored `-2` at
`(0,0)` (named-layer-free and prune-clean, `-2` carries no rules). -/
def sentinelScene : Scene :=
  baseScene (fun x y => if x = 0 ∧ y = 0 then -2 else -1)

theorem foldl_min_le_init (l : List Int) (init : Int) : l.foldl min init ≤ init := by
  induction l generalizing init with
  | nil => exact le_refl _
  | cons x xs ih =>
    exact le_trans (ih (min init x)) (min_le_left _ _)

theorem foldl_min_le {l : List Int} {a : Int} (init : Int) (h : a ∈ l) :
    l.foldl min init ≤ a := by
  induction l generalizing init with
  | nil => cases h
  | cons x xs ih =>
    rcases List.mem_cons.mp h with rfl | hmem
    · exact le_trans (foldl_min_le_init xs _) (min_le_right _ _)
    · exact ih _ hmem

theorem init_le_foldl_max (l : List Int) (init : Int) : init ≤ l.foldl max init := by
  induction l generalizing init with
  | nil => exact le_refl _
  | cons x xs ih =>
    exact le_trans (le_max_left _ _) (ih (max init x))

theorem le_foldl_max {l : List Int} {a : Int} (init : Int) (h : a ∈ l) :
    a ≤ l.foldl max init := by
  induction l generalizing init with
  | nil => cases h
  | cons x xs ih =>
    rcases List.mem_cons.mp h with rfl | hmem
    · exact le_trans (le_max_right _ _) (init_le_foldl_max xs _)
    · exact ih _ hmem

/-- The undo run changes every canvas cell, so its prune rectangle is the
whole canvas. -/
theorem inPruneBox_undoCH {x y : Int} (h : inCanvasP x y) :
    inPruneBox undoCH x y := by
  have h00 : ((0 : Int), (0 : Int)) ∈ undoCH := by
    unfold undoCH
    exact List.mem_map.mpr ⟨(0, 0), mem_cellOffsets.mpr ⟨by decide, by decide⟩, rfl⟩
  have h99 : ((39 : Int), (24 : Int)) ∈ undoCH := by
    unfold undoCH
    refine List.mem_map.mpr ⟨(24, 39), mem_cellOffsets.mpr ⟨by decide, by decide⟩, rfl⟩
  unfold inCanvasP CANVAS_WIDTH CANVAS_HEIGHT at h
  cases hu : undoCH with
  | nil => rw [hu] at h00; cases h00
  | cons c cs =>
    rw [hu] at h00 h99
    unfold inPruneBox pruneBox CANVAS_WIDTH CANVAS_HEIGHT
    have hx0 : (0 : Int) ∈ (c :: cs).map Prod.fst :=
      List.mem_map.mpr ⟨(0, 0), h00, rfl⟩
    have hx39 : (39 : Int) ∈ (c :: cs).map Prod.fst :=
      List.mem_map.mpr ⟨(39, 24), h99, rfl⟩
    have hy0 : (0 : Int) ∈ (c :: cs).map Prod.snd :=
      List.mem_map.mpr ⟨(0, 0), h00, rfl⟩
    have hy24 : (24 : Int) ∈ (c :: cs).map Prod.snd :=
      List.mem_map.mpr ⟨(39, 24), h99, rfl⟩
    have hminx := foldl_min_le (l := (c :: cs).map Prod.fst) c.1 hx0
    have hmaxx := le_foldl_max (l := (c :: cs).map Prod.fst) c.1 hx39
    have hminy := foldl_min_le (l := (c :: cs).map Prod.snd) c.2 hy0
    have hmaxy := le_foldl_max (l := (c :: cs).map Prod.snd) c.2 hy24
    refine ⟨max_le (by omega) (by omega), le_min (by omega) (by omega),
      max_le (by omega) (by omega), le_min (by omega) (by omega)⟩

set_option maxRecDepth 8000 in
theorem sentinel_demo :
    flatCell ((fullUndoToolCall (applyTurnCalls []
        (putFeatureAtSelection (markNewTurn sentinelScene) [[-1]] true false
          false).1)).1) 0 0 ≠ flatCell sentinelScene 0 0 := by
  have hN0 : (markNewTurn sentinelScene).named = [] := rfl
  have hng := putFeature_named_grass (markNewTurn sentinelScene) [[-1]] true false false hN0
  have hts := putFeature_turnStart (markNewTurn sentinelScene) [[-1]] true false false
  have hra := resolveAnchor_frame (markNewTurn sentinelScene) true
  have hcap := snapshotPhase_capture (resolveAnchor (markNewTurn sentinelScene) true).1 hra.2.1
  have hBu : (putFeatureAtSelection (markNewTurn sentinelScene) [[-1]] true false
      false).1.turnStartGrid = snapshotGrid sentinelScene :=
    hts.1.trans (hcap.1.trans (snapshotGrid_resolveAnchor (markNewTurn sentinelScene) true))
  show flatCell ((fullUndoToolCall
      (putFeatureAtSelection (markNewTurn sentinelScene) [[-1]] true false
        false).1).1) 0 0 ≠ flatCell sentinelScene 0 0
  rw [undo_flatten_pointwise _ sentinelScene hng.1 hBu 0 0 (by decide)]
  have hA : (if inPruneBox undoCH 0 0 ∧
      cellBroken (fun a b => undoWriteVal sentinelScene a b) 0 0 = true then (-1 : Int)
    else undoWriteVal sentinelScene 0 0) = -1 := by
    rw [if_neg (fun hc => absurd hc.2 (by decide))]
    decide
  rw [hA, if_pos rfl, hng.2]
  decide

set_option maxRecDepth 8000 in
theorem lone_demo :
    flatCell ((fullUndoToolCall (applyTurnCalls []
        (putFeatureAtSelection (markNewTurn loneBottomScene) [[-1]] true false
          false).1)).1) 9 9 ≠ flatCell loneBottomScene 9 9 := by
  have hN0 : (markNewTurn loneBottomScene).named = [] := rfl
  have hng := putFeature_named_grass (markNewTurn loneBottomScene) [[-1]] true false false hN0
  have hts := putFeature_turnStart (markNewTurn loneBottomScene) [[-1]] true false false
  have hra := resolveAnchor_frame (markNewTurn loneBottomScene) true
  have hcap := snapshotPhase_capture (resolveAnchor (markNewTurn loneBottomScene) true).1 hra.2.1
  have hBu : (putFeatureAtSelection (markNewTurn loneBottomScene) [[-1]] true false
      false).1.turnStartGrid = snapshotGrid loneBottomScene :=
    hts.1.trans (hcap.1.trans (snapshotGrid_resolveAnchor (markNewTurn loneBottomScene) true))
  show flatCell ((fullUndoToolCall
      (putFeatureAtSelection (markNewTurn loneBottomScene) [[-1]] true false
        false).1).1) 9 9 ≠ flatCell loneBottomScene 9 9
  rw [undo_flatten_pointwise _ loneBottomScene hng.1 hBu 9 9 (by decide)]
  have hA : (if inPruneBox undoCH 9 9 ∧
      cellBroken (fun a b => undoWriteVal loneBottomScene a b) 9 9 = true then (-1 : Int)
    else undoWriteVal loneBottomScene 9 9) = -1 :=
    if_pos ⟨inPruneBox_undoCH (by decide), by decide⟩
  rw [hA, if_pos rfl, hng.2]
  decide

def oneBox : Bounds := ⟨5, 6, 1, 1⟩

theorem namedGet_out {L : NamedLayer} {x y : Int}
    (h : ¬containsB L.bounds x y) : namedGet L x y = none := by
  unfold namedGet layerGet
  rw [if_neg (fun hc => h ⟨by omega, by omega, by omega, by omega⟩)]

theorem flatCell_oneOff {s : Scene} {L : NamedLayer} {x y : Int}
    (h : s.named = [L]) (hn : namedGet L x y = none) :
    flatCell s x y = match layerGetC s.feature x y with
      | some v => v
      | none => match layerGetC s.grass x y with
        | some g => g
        | none => -1 := by
  unfold flatCell
  rw [h]
  simp only [List.foldl_cons, List.foldl_nil, hn]
  try rfl

theorem flatCell_oneOff2 {s : Scene} {L : NamedLayer} {x y g : Int}
    (h : s.named = [L]) (hn : namedGet L x y = none)
    (hf : layerGetC s.feature x y = none) (hg : layerGetC s.grass x y = some g) :
    flatCell s x y = g := by
  rw [flatCell_oneOff h hn, hf, hg]

theorem placeInNamed_oneBox_off {un : Bool} {L : NamedLayer} {px py v : Int}
    (hb : L.bounds = oneBox) (hne : ¬(px = 5 ∧ py = 6)) :
    placeInNamed un [L] px py v = NamedOutcome.nohit := by
  have hcb : ¬containsB L.bounds px py := by
    rw [hb]
    unfold containsB oneBox
    intro hc
    dsimp only at hc
    exact hne ⟨by omega, by omega⟩
  unfold placeInNamed
  rw [if_neg hcb]
  rfl

theorem placeInNamed_oneBox_hit {L : NamedLayer} {px py v : Int}
    (hb : L.bounds = oneBox) (h5 : px = 5) (h6 : py = 6) :
    placeInNamed true [L] px py v = NamedOutcome.placed [namedPut L px py v] := by
  subst h5
  subst h6
  have hcb : containsB L.bounds 5 6 := by
    rw [hb]
    decide
  unfold placeInNamed
  rw [if_pos hcb, if_pos (Or.inr (show allowOverwriting = true from rfl)),
    if_pos (Or.inr (show (true : Bool) = true from rfl))]

/-- One step of the undo run on a state holding exactly one named layer
with bounds `oneBox` (covering only the world cell `(5,6)`): the `(5,6)`
cell (whose snapshot value is a real tile) is written into the named layer
and the feature layer is left alone there; every other cell behaves as in
the layer-free run. -/
theorem undoOne_step_eq (c : Scene) (h56 : 0 ≤ snapshotCell c 5 6)
    (st : PlaceState) (p : Nat × Nat) (hy : p.1 < 25) (hx : p.2 < 40)
    (L : NamedLayer) (hnamed : st.scene.named = [L]) (hb : L.bounds = oneBox)
    (hact : st.scene.activeLayerBounds = none) :
    processCell true true 0 0 (snapshotGrid c) st p =
      if (p.2 : Int) = 5 ∧ (p.1 : Int) = 6 then
        placedResult (countTile true st (snapshotCell c (p.2 : Int) (p.1 : Int)))
          [namedPut L (0 + (p.2 : Int)) (0 + (p.1 : Int))
            (snapshotCell c (p.2 : Int) (p.1 : Int))]
          (0 + (p.2 : Int)) (0 + (p.1 : Int))
      else if snapshotCell c (p.2 : Int) (p.1 : Int) = -2 then
        clearResult (countTile true st (snapshotCell c (p.2 : Int) (p.1 : Int)))
          (0 + (p.2 : Int)) (0 + (p.1 : Int))
      else
        fallbackWrite true (0 + (p.2 : Int)) (0 + (p.1 : Int))
          (countTile true st (snapshotCell c (p.2 : Int) (p.1 : Int)))
          (snapshotCell c (p.2 : Int) (p.1 : Int)) := by
  obtain ⟨py, px⟩ := p
  have hy' : py < 25 := hy
  have hx' : px < 40 := hx
  unfold processCell
  have hcanvas : inCanvasP (0 + ((py, px).2 : Int)) (0 + ((py, px).1 : Int)) := by
    unfold inCanvasP CANVAS_WIDTH CANVAS_HEIGHT
    refine ⟨?_, ?_, ?_, ?_⟩ <;> omega
  rw [if_neg (not_not_intro hcanvas)]
  have hbuf : bufGet (snapshotGrid c) (py, px).1 (py, px).2 =
      some (snapshotCell c (px : Int) (py : Int)) :=
    bufGet_snapshotGrid c hy' hx'
  rw [hbuf]
  show processCellVal true true (0 + (px : Int)) (0 + (py : Int)) st
      (snapshotCell c (px : Int) (py : Int)) = _
  unfold processCellVal
  rw [if_neg (fun h => absurd h.2 (by decide))]
  unfold processCellPlace
  by_cases hp56 : (px : Int) = 5 ∧ (py : Int) = 6
  · rw [if_pos hp56]
    have hv : snapshotCell c (px : Int) (py : Int) = snapshotCell c 5 6 := by
      rw [hp56.1, hp56.2]
    rw [if_neg (fun h => by rw [hv] at h; omega)]
    have hact' : activeResOf
        (countTile true st (snapshotCell c (px : Int) (py : Int))).scene
        (0 + (px : Int)) (0 + (py : Int)) (snapshotCell c (px : Int) (py : Int)) = none := by
      unfold activeResOf
      rw [countTile_scene, hact]
    rw [hact']
    have hpn : (if 0 ≤ snapshotCell c (px : Int) (py : Int) then
        placeInNamed true
          (countTile true st (snapshotCell c (px : Int) (py : Int))).scene.named
          (0 + (px : Int)) (0 + (py : Int)) (snapshotCell c (px : Int) (py : Int))
        else NamedOutcome.nohit) =
        NamedOutcome.placed [namedPut L (0 + (px : Int)) (0 + (py : Int))
          (snapshotCell c (px : Int) (py : Int))] := by
      rw [if_pos (by rw [hv]; exact h56), countTile_scene, hnamed,
        placeInNamed_oneBox_hit hb (by omega) (by omega)]
    rw [hpn]
  · rw [if_neg hp56]
    by_cases hv2 : snapshotCell c (px : Int) (py : Int) = -2
    · rw [if_pos ⟨rfl, hv2⟩, if_pos hv2]
    · rw [if_neg hv2, if_neg (fun h => hv2 h.2)]
      have hact' : activeResOf
          (countTile true st (snapshotCell c (px : Int) (py : Int))).scene
          (0 + (px : Int)) (0 + (py : Int)) (snapshotCell c (px : Int) (py : Int)) = none := by
        unfold activeResOf
        rw [countTile_scene, hact]
      rw [hact']
      have hpn : (if 0 ≤ snapshotCell c (px : Int) (py : Int) then
          placeInNamed true
            (countTile true st (snapshotCell c (px : Int) (py : Int))).scene.named
            (0 + (px : Int)) (0 + (py : Int)) (snapshotCell c (px : Int) (py : Int))
          else NamedOutcome.nohit) = NamedOutcome.nohit := by
        rw [countTile_scene, hnamed]
        split
        · exact placeInNamed_oneBox_off hb (fun hc => hp56 ⟨by omega, by omega⟩)
        · rfl
      rw [hpn]
      show fallbackPlace true (0 + (px : Int)) (0 + (py : Int))
          (countTile true st (snapshotCell c (px : Int) (py : Int)))
          (snapshotCell c (px : Int) (py : Int)) = _
      unfold fallbackPlace
      rw [if_pos (show allowOverwriting = true from rfl), if_pos (Or.inr rfl)]

theorem clearNamedAll_oneBox_off {L : NamedLayer} {px py : Int}
    (hb : L.bounds = oneBox) (hne : ¬(px = 5 ∧ py = 6)) :
    clearNamedAll [L] px py = [L] := by
  unfold clearNamedAll
  rw [List.map_cons, List.map_nil,
    if_neg (fun hc => by
      rw [hb] at hc
      unfold containsB oneBox at hc
      dsimp only at hc
      exact hne ⟨by omega, by omega⟩)]

theorem undoOne_step_fields (c : Scene) (h56 : 0 ≤ snapshotCell c 5 6)
    (st : PlaceState) (p : Nat × Nat) (hy : p.1 < 25) (hx : p.2 < 40)
    (L : NamedLayer) (hnamed : st.scene.named = [L]) (hb : L.bounds = oneBox)
    (hact : st.scene.activeLayerBounds = none) :
    (∃ L', (processCell true true 0 0 (snapshotGrid c) st p).scene.named = [L'] ∧
      L'.bounds = oneBox) ∧
    (processCell true true 0 0 (snapshotGrid c) st p).scene.activeLayerBounds = none ∧
    (processCell true true 0 0 (snapshotGrid c) st p).scene.grass = st.scene.grass ∧
    (processCell true true 0 0 (snapshotGrid c) st p).changed =
      st.changed ++ [((p.2 : Int), (p.1 : Int))] ∧
    (∀ a b : Int, ¬(a = 5 ∧ b = 6) →
      (processCell true true 0 0 (snapshotGrid c) st p).scene.feature a b =
        putTileC st.scene.feature (p.2 : Int) (p.1 : Int)
          (undoWriteVal c (p.2 : Int) (p.1 : Int)) a b) ∧
    (processCell true true 0 0 (snapshotGrid c) st p).scene.feature 5 6 =
      st.scene.feature 5 6 := by
  rw [undoOne_step_eq c h56 st p hy hx L hnamed hb hact]
  by_cases hp56 : (p.2 : Int) = 5 ∧ (p.1 : Int) = 6
  · rw [if_pos hp56]
    refine ⟨⟨namedPut L (0 + (p.2 : Int)) (0 + (p.1 : Int))
        (snapshotCell c (p.2 : Int) (p.1 : Int)), rfl,
        (namedPut_bounds _ _ _ _).trans hb⟩, ?_, ?_, ?_, ?_, ?_⟩
    · show (countTile true st (snapshotCell c (p.2 : Int) (p.1 : Int))).scene.activeLayerBounds =
        none
      rw [countTile_scene]
      exact hact
    · show (countTile true st (snapshotCell c (p.2 : Int) (p.1 : Int))).scene.grass =
        st.scene.grass
      rw [countTile_scene]
    · show (countTile true st (snapshotCell c (p.2 : Int) (p.1 : Int))).changed ++
          [(0 + (p.2 : Int), 0 + (p.1 : Int))] =
        st.changed ++ [((p.2 : Int), (p.1 : Int))]
      rw [countTile_changed, zero_add, zero_add]
    · intro a b hab
      show (countTile true st (snapshotCell c (p.2 : Int) (p.1 : Int))).scene.feature a b =
        putTileC st.scene.feature (p.2 : Int) (p.1 : Int)
          (undoWriteVal c (p.2 : Int) (p.1 : Int)) a b
      rw [countTile_scene, putTileC_eval,
        if_neg (fun hcc => hab ⟨by omega, by omega⟩)]
    · show (countTile true st (snapshotCell c (p.2 : Int) (p.1 : Int))).scene.feature 5 6 =
        st.scene.feature 5 6
      rw [countTile_scene]
  · rw [if_neg hp56]
    by_cases hv2 : snapshotCell c (p.2 : Int) (p.1 : Int) = -2
    · rw [if_pos hv2]
      refine ⟨⟨L, ?_, hb⟩, ?_, ?_, ?_, ?_, ?_⟩
      · show clearNamedAll
            (countTile true st (snapshotCell c (p.2 : Int) (p.1 : Int))).scene.named
            (0 + (p.2 : Int)) (0 + (p.1 : Int)) = [L]
        rw [countTile_scene, hnamed, zero_add, zero_add]
        exact clearNamedAll_oneBox_off hb hp56
      · show (countTile true st (snapshotCell c (p.2 : Int) (p.1 : Int))).scene.activeLayerBounds =
          none
        rw [countTile_scene]
        exact hact
      · show (countTile true st (snapshotCell c (p.2 : Int) (p.1 : Int))).scene.grass =
          st.scene.grass
        rw [countTile_scene]
      · show (countTile true st (snapshotCell c (p.2 : Int) (p.1 : Int))).changed ++
            [(0 + (p.2 : Int), 0 + (p.1 : Int))] =
          st.changed ++ [((p.2 : Int), (p.1 : Int))]
        rw [countTile_changed, zero_add, zero_add]
      · intro a b hab
        show putTileC
            (countTile true st (snapshotCell c (p.2 : Int) (p.1 : Int))).scene.feature
            (0 + (p.2 : Int)) (0 + (p.1 : Int)) (-1) a b =
          putTileC st.scene.feature (p.2 : Int) (p.1 : Int)
            (undoWriteVal c (p.2 : Int) (p.1 : Int)) a b
        unfold undoWriteVal
        rw [countTile_scene, zero_add, zero_add, if_pos hv2]
      · show putTileC
            (countTile true st (snapshotCell c (p.2 : Int) (p.1 : Int))).scene.feature
            (0 + (p.2 : Int)) (0 + (p.1 : Int)) (-1) 5 6 =
          st.scene.feature 5 6
        rw [countTile_scene, putTileC_eval,
          if_neg (fun hcc => hp56 ⟨by obtain ⟨⟨h1, h2⟩, _⟩ := hcc; omega,
            by obtain ⟨⟨h1, h2⟩, _⟩ := hcc; omega⟩)]
    · rw [if_neg hv2]
      refine ⟨⟨L, ?_, hb⟩, ?_, ?_, ?_, ?_, ?_⟩
      · show (if true = true then
            clearNamedAll
              (countTile true st (snapshotCell c (p.2 : Int) (p.1 : Int))).scene.named
              (0 + (p.2 : Int)) (0 + (p.1 : Int))
          else (countTile true st (snapshotCell c (p.2 : Int) (p.1 : Int))).scene.named) = [L]
        rw [if_pos rfl, countTile_scene, hnamed, zero_add, zero_add]
        exact clearNamedAll_oneBox_off hb hp56
      · show (countTile true st (snapshotCell c (p.2 : Int) (p.1 : Int))).scene.activeLayerBounds =
          none
        rw [countTile_scene]
        exact hact
      · show (countTile true st (snapshotCell c (p.2 : Int) (p.1 : Int))).scene.grass =
          st.scene.grass
        rw [countTile_scene]
      · show (countTile true st (snapshotCell c (p.2 : Int) (p.1 : Int))).changed ++
            [(0 + (p.2 : Int), 0 + (p.1 : Int))] =
          st.changed ++ [((p.2 : Int), (p.1 : Int))]
        rw [countTile_changed, zero_add, zero_add]
      · intro a b hab
        show putTileC
            (countTile true st (snapshotCell c (p.2 : Int) (p.1 : Int))).scene.feature
            (0 + (p.2 : Int)) (0 + (p.1 : Int))
            (snapshotCell c (p.2 : Int) (p.1 : Int)) a b =
          putTileC st.scene.feature (p.2 : Int) (p.1 : Int)
            (undoWriteVal c (p.2 : Int) (p.1 : Int)) a b
        unfold undoWriteVal
        rw [countTile_scene, zero_add, zero_add, if_neg hv2]
      · show putTileC
            (countTile true st (snapshotCell c (p.2 : Int) (p.1 : Int))).scene.feature
            (0 + (p.2 : Int)) (0 + (p.1 : Int))
            (snapshotCell c (p.2 : Int) (p.1 : Int)) 5 6 =
          st.scene.feature 5 6
        rw [countTile_scene, putTileC_eval,
          if_neg (fun hcc => hp56 ⟨by obtain ⟨⟨h1, h2⟩, _⟩ := hcc; omega,
            by obtain ⟨⟨h1, h2⟩, _⟩ := hcc; omega⟩)]

/-- The whole undo run over a state holding exactly one named layer with
bounds `oneBox`: analogous to the layer-free characterisation, except that
the feature layer is only characterised away from `(5,6)` and is untouched
at `(5,6)` (the `(5,6)` write goes into the named layer). -/
theorem undoOne_loop (c : Scene) (h56 : 0 ≤ snapshotCell c 5 6) :
    ∀ (l : List (Nat × Nat)) (st : PlaceState),
    (∀ p ∈ l, p.1 < 25 ∧ p.2 < 40) →
    ∀ L : NamedLayer, st.scene.named = [L] → L.bounds = oneBox →
    st.scene.activeLayerBounds = none →
    (∃ L', (l.foldl (processCell true true 0 0 (snapshotGrid c)) st).scene.named = [L'] ∧
      L'.bounds = oneBox) ∧
    (l.foldl (processCell true true 0 0 (snapshotGrid c)) st).scene.activeLayerBounds = none ∧
    (l.foldl (processCell true true 0 0 (snapshotGrid c)) st).scene.grass = st.scene.grass ∧
    (l.foldl (processCell true true 0 0 (snapshotGrid c)) st).changed =
      st.changed ++ l.map (fun p => ((p.2 : Int), (p.1 : Int))) ∧
    (∀ a b : Int, ¬(a = 5 ∧ b = 6) →
      ((∃ p ∈ l, (p.2 : Int) = a ∧ (p.1 : Int) = b) →
        (l.foldl (processCell true true 0 0 (snapshotGrid c)) st).scene.feature a b =
          undoWriteVal c a b) ∧
      ((∀ p ∈ l, ¬((p.2 : Int) = a ∧ (p.1 : Int) = b)) →
        (l.foldl (processCell true true 0 0 (snapshotGrid c)) st).scene.feature a b =
          st.scene.feature a b)) ∧
    (l.foldl (processCell true true 0 0 (snapshotGrid c)) st).scene.feature 5 6 =
      st.scene.feature 5 6
  | [], st, hmem, L, hnamed, hb, hact =>
    ⟨⟨L, hnamed, hb⟩, hact, rfl, by rw [List.map_nil, List.append_nil]; rfl,
      fun a b hab => ⟨(by rintro ⟨p, hp, _⟩; cases hp), fun _ => rfl⟩, rfl⟩
  | q :: rest, st, hmem, L, hnamed, hb, hact => by
    have hq := hmem q (List.mem_cons_self q rest)
    have hstep := undoOne_step_fields c h56 st q hq.1 hq.2 L hnamed hb hact
    obtain ⟨L1, hL1, hL1b⟩ := hstep.1
    have ih := undoOne_loop c h56 rest
      (processCell true true 0 0 (snapshotGrid c) st q)
      (fun p hp => hmem p (List.mem_cons_of_mem q hp)) L1 hL1 hL1b hstep.2.1
    simp only [List.foldl_cons]
    have hqc : inCanvasP (q.2 : Int) (q.1 : Int) := by
      unfold inCanvasP CANVAS_WIDTH CANVAS_HEIGHT
      refine ⟨?_, ?_, ?_, ?_⟩ <;> omega
    refine ⟨ih.1, ih.2.1, ih.2.2.1.trans hstep.2.2.1, ?_, fun a b hab => ⟨?_, ?_⟩,
      ih.2.2.2.2.2.trans hstep.2.2.2.2.2⟩
    · rw [ih.2.2.2.1, hstep.2.2.2.1, List.map_cons, List.append_assoc]
      rfl
    · rintro ⟨p, hp, hpa, hpb⟩
      rcases List.mem_cons.mp hp with rfl | hmem'
      · by_cases hcov : ∃ p ∈ rest, (p.2 : Int) = a ∧ (p.1 : Int) = b
        · exact (ih.2.2.2.2.1 a b hab).1 hcov
        · push_neg at hcov
          rw [(ih.2.2.2.2.1 a b hab).2 (fun p' hp' hc => hcov p' hp' hc.1 hc.2),
            hstep.2.2.2.2.1 a b hab, putTileC_eval,
            if_pos ⟨⟨hpa.symm, hpb.symm⟩, hqc⟩, hpa, hpb]
      · exact (ih.2.2.2.2.1 a b hab).1 ⟨p, hmem', hpa, hpb⟩
    · intro hnone
      rw [(ih.2.2.2.2.1 a b hab).2
          (fun p' hp' => hnone p' (List.mem_cons_of_mem q hp')),
        hstep.2.2.2.2.1 a b hab, putTileC_eval,
        if_neg (fun hcc => hnone q (List.mem_cons_self q rest)
          ⟨hcc.1.1.symm, hcc.1.2.symm⟩)]

theorem pruneScene_named (s : Scene) (ch : List (Int × Int)) :
    (pruneBrokenTreesScene s ch).named = s.named := rfl

theorem pruneScene_grass (s : Scene) (ch : List (Int × Int)) :
    (pruneBrokenTreesScene s ch).grass = s.grass := rfl

theorem pruneScene_feature (s : Scene) (ch : List (Int × Int)) :
    (pruneBrokenTreesScene s ch).feature = pruneBrokenTrees s.feature ch := rfl

def halfWg : Grid := fun a b =>
  if a = 5 ∧ b = 6 then -1 else undoWriteVal halfTreeScene a b

set_option maxRecDepth 8000 in
theorem halfTree_demo :
    flatCell ((fullUndoToolCall (applyTurnCalls [(clear56Buffer, true, true)]
        (putFeatureAtSelection (markNewTurn halfTreeScene) [[-1]] true false
          false).1)).1) 5 5 ≠ flatCell halfTreeScene 5 5 := by
  show flatCell ((fullUndoToolCall
      (putFeatureAtSelection
        (putFeatureAtSelection (markNewTurn halfTreeScene) [[-1]] true false false).1
        clear56Buffer true true false).1).1) 5 5 ≠ flatCell halfTreeScene 5 5
  set u := (putFeatureAtSelection
    (putFeatureAtSelection (markNewTurn halfTreeScene) [[-1]] true false false).1
    clear56Buffer true true false).1 with hu
  have hun : u.named = [namedPut ⟨"box", oneBox, fun _ _ => -1⟩ 5 6 (-1)] := rfl
  have hb2 : (namedPut ⟨"box", oneBox, fun _ _ => -1⟩ 5 6 (-1)).bounds = oneBox := rfl
  have hua : u.activeLayerBounds = none := rfl
  have hBu : u.turnStartGrid = snapshotGrid halfTreeScene := rfl
  have huf56 : u.feature 5 6 = -1 := by decide
  have h56v : (0 : Int) ≤ snapshotCell halfTreeScene 5 6 := by decide
  have hrun := undoOne_loop halfTreeScene h56v (cellOffsets 25 40) ⟨u, [], 0, 0⟩
    (fun p hp => mem_cellOffsets.mp hp) _ hun hb2 hua
  rw [fullUndo_run u halfTreeScene hBu]
  show flatCell (markNewTurn (pruneBrokenTreesScene
      ((cellOffsets 25 40).foldl (processCell true true 0 0
        (snapshotGrid halfTreeScene)) ⟨u, [], 0, 0⟩).scene
      ((cellOffsets 25 40).foldl (processCell true true 0 0
        (snapshotGrid halfTreeScene)) ⟨u, [], 0, 0⟩).changed)) 5 5 ≠
    flatCell halfTreeScene 5 5
  rw [flatCell_markNewTurn]
  set F := (cellOffsets 25 40).foldl (processCell true true 0 0
    (snapshotGrid halfTreeScene)) ⟨u, [], 0, 0⟩ with hF
  obtain ⟨L3, hL3, hL3b⟩ := hrun.1
  have hng55 : namedGet L3 5 5 = none := by
    refine namedGet_out ?_
    rw [hL3b]
    unfold containsB oneBox
    intro hc
    dsimp only at hc
    omega
  have hPn : (pruneBrokenTreesScene F.scene F.changed).named = [L3] := by
    rw [pruneScene_named]
    exact hL3
  have hch : F.changed = undoCH := by
    rw [hrun.2.2.2.1]
    show [] ++ _ = _
    rw [List.nil_append]
    rfl
  have hWg : ∀ a b : Int, layerGetC F.scene.feature a b = layerGetC halfWg a b := by
    intro a b
    by_cases hab : a = 5 ∧ b = 6
    · obtain ⟨rfl, rfl⟩ := hab
      have h1 : F.scene.feature 5 6 = (-1 : Int) := by
        rw [hrun.2.2.2.2.2]
        exact huf56
      have h2 : layerGetC halfWg 5 6 = none := by decide
      rw [layerGetC_in (by decide), h1, h2]
      decide
    · by_cases hc : inCanvasP a b
      · have h1 : F.scene.feature a b = undoWriteVal halfTreeScene a b :=
          (hrun.2.2.2.2.1 a b hab).1 (cover_cellOffsets hc)
        rw [layerGetC_in hc, layerGetC_in hc, h1]
        unfold halfWg
        rw [if_neg hab]
      · rw [layerGetC_out hc, layerGetC_out hc]
  have hcb : cellBroken F.scene.feature 5 5 = cellBroken halfWg 5 5 :=
    cellBroken_congr hWg 5 5
  have hpt : pruneBrokenTrees F.scene.feature F.changed 5 5 = -1 := by
    rw [prune_eval, hch, hcb,
      if_pos ⟨inPruneBox_undoCH (by decide), by decide⟩]
  have hf55 : layerGetC (pruneBrokenTreesScene F.scene F.changed).feature 5 5 =
      none := by
    rw [pruneScene_feature, layerGetC_in (by decide), hpt]
    decide
  have hgl : layerGetC (pruneBrokenTreesScene F.scene F.changed).grass 5 5 =
      some 0 := by
    rw [pruneScene_grass, hrun.2.2.1]
    decide
  rw [flatCell_oneOff2 hPn hng55 hf55 hgl]
  decide

/-- C2, counterexample to the claim as stated: a turn whose first
placement call is an explicit clear (`acceptExplicitClear` set) never
captures the turn-start snapshot — the snapshot phase is guarded by
`!acceptneg` — so the turn undo cannot restore the grid from before the
turn: the clear erases the tile `5` at `(0,0)` and the undo (which errors
out on the empty snapshot) leaves it erased. -/
theorem claim2_counterexample :
    flatCell ((fullUndoToolCall
        (putFeatureAtSelection
          (markNewTurn (baseScene (putTileC (fun _ _ => -1) 0 0 5)))
          [[-2]] true true false).1).1) 0 0 ≠
      flatCell (markNewTurn (baseScene (putTileC (fun _ _ => -1) 0 0 5))) 0 0 := by
  decide

set_option maxRecDepth 8000 in
/-- C2, corrected: (1) the first placement call with `acceptExplicitClear`
unset after `markNewTurn()` captures the turn-start snapshot of the scene
as it stands at that call and clears the pending flag; (2) once the flag is
down, no later non-undo call overwrites the snapshot; (3) an explicit-clear
call never captures the snapshot nor touches the flag (this is where the
claim as stated fails); (4) for every turn from a pre-turn scene with no
named layers, no stored `-2` and no broken tree cell — `markNewTurn`, a
first capture call, arbitrary further non-undo calls — the turn undo
succeeds and restores the flattened grid to the pre-turn flattened grid;
(5)–(7) each hypothesis of (4) is necessary, each shown by a turn of the
exact shape of (4) violating only that hypothesis: (5) an empty named
layer over the bottom of a complete feature-layer tree (capture, then an
explicit clear of the bottom cell; the undo re-places the bottom into the
named layer, the orphaned feature-layer top is pruned); (6) a lone tree
bottom in the feature layer (re-placed by the undo and pruned again);
(7) a stored `-2` (re-placed by the undo through the explicit-clear branch,
which erases it). -/
theorem claim2_turn_undo :
    (∀ (s : Scene) (grid : Buffer) (wo un : Bool),
      (putFeatureAtSelection (markNewTurn s) grid wo false un).1.turnStartGrid =
        snapshotGrid s ∧
      (putFeatureAtSelection (markNewTurn s) grid wo false un).1.shouldSaveTurnStart =
        false) ∧
    (∀ (s : Scene) (grid : Buffer) (wo an un : Bool),
      s.shouldSaveTurnStart = false →
      (putFeatureAtSelection s grid wo an un).1.turnStartGrid = s.turnStartGrid ∧
      (putFeatureAtSelection s grid wo an un).1.shouldSaveTurnStart = false) ∧
    (∀ (s : Scene) (grid : Buffer) (wo un : Bool),
      (putFeatureAtSelection s grid wo true un).1.turnStartGrid = s.turnStartGrid ∧
      (putFeatureAtSelection s grid wo true un).1.shouldSaveTurnStart =
        s.shouldSaveTurnStart) ∧
    (∀ (s0 : Scene) (g1 : Buffer) (wo1 : Bool)
      (ks : List (Buffer × Bool × Bool)),
      s0.named = [] →
      (∀ x y : Int, s0.feature x y ≠ -2) →
      (∀ x y : Int, cellBroken s0.feature x y = false) →
      (fullUndoToolCall (applyTurnCalls ks
          (putFeatureAtSelection (markNewTurn s0) g1 wo1 false false).1)).2 = true ∧
      GetFlattenedTileMap (fullUndoToolCall (applyTurnCalls ks
          (putFeatureAtSelection (markNewTurn s0) g1 wo1 false false).1)).1 =
        GetFlattenedTileMap s0) ∧
    (halfTreeScene.named ≠ [] ∧
      flatCell ((fullUndoToolCall (applyTurnCalls [(clear56Buffer, true, true)]
          (putFeatureAtSelection (markNewTurn halfTreeScene) [[-1]] true false
            false).1)).1) 5 5 ≠ flatCell halfTreeScene 5 5) ∧
    (cellBroken loneBottomScene.feature 9 9 = true ∧
      flatCell ((fullUndoToolCall (applyTurnCalls []
          (putFeatureAtSelection (markNewTurn loneBottomScene) [[-1]] true false
            false).1)).1) 9 9 ≠ flatCell loneBottomScene 9 9) ∧
    (sentinelScene.feature 0 0 = -2 ∧
      flatCell ((fullUndoToolCall (applyTurnCalls []
          (putFeatureAtSelection (markNewTurn sentinelScene) [[-1]] true false
            false).1)).1) 0 0 ≠ flatCell sentinelScene 0 0) := by
  refine ⟨?_, ?_, ?_, undo_turn_restores,
    ⟨fun h => absurd (congrArg List.length h) (by decide), halfTree_demo⟩,
    ⟨by decide, lone_demo⟩, ⟨by decide, sentinel_demo⟩⟩
  · intro s grid wo un
    have h := putFeature_turnStart (markNewTurn s) grid wo false un
    have hra := resolveAnchor_frame (markNewTurn s) wo
    have hcap := snapshotPhase_capture (resolveAnchor (markNewTurn s) wo).1 hra.2.1
    exact ⟨h.1.trans (hcap.1.trans (snapshotGrid_resolveAnchor (markNewTurn s) wo)),
      h.2.trans hcap.2⟩
  · intro s grid wo an un hflag
    have h := putFeature_turnStart s grid wo an un
    have hra := resolveAnchor_frame s wo
    have hst := snapshotPhase_stable (resolveAnchor s wo).1 (hra.2.1.trans hflag) an
    exact ⟨h.1.trans (hst.1.trans hra.1), h.2.trans hst.2⟩
  · intro s grid wo un
    have h := putFeature_turnStart s grid wo true un
    have hra := resolveAnchor_frame s wo
    constructor
    · refine h.1.trans ?_
      rw [snapshotPhase_acceptneg]
      exact hra.1
    · refine h.2.trans ?_
      rw [snapshotPhase_acceptneg]
      exact hra.2.1

/-- An empty capture-time scene for the C2 witness. -/
def undoDemoC : Scene := baseScene (fun _ _ => -1)

/-- The same scene with the pending turn-start flag already down, for the
stability and explicit-clear conjuncts. -/
def undoDemoU : Scene :=
  { undoDemoC with turnStartGrid := snapshotGrid undoDemoC,
                   shouldSaveTurnStart := false }

/-- Witness for C2: the quantified conjuncts of the corrected claim
instantiated on the demo scenes, including a full two-call turn with undo. -/
theorem claim2_witness :
    ((putFeatureAtSelection (markNewTurn undoDemoC) [[0]] true false false).1.turnStartGrid =
        snapshotGrid undoDemoC ∧
      (putFeatureAtSelection (markNewTurn undoDemoC) [[0]] true false
          false).1.shouldSaveTurnStart = false) ∧
    ((putFeatureAtSelection undoDemoU [[0]] true false false).1.turnStartGrid =
        undoDemoU.turnStartGrid ∧
      (putFeatureAtSelection undoDemoU [[0]] true false false).1.shouldSaveTurnStart =
        false) ∧
    ((putFeatureAtSelection undoDemoU [[-2]] true true false).1.turnStartGrid =
        undoDemoU.turnStartGrid ∧
      (putFeatureAtSelection undoDemoU [[-2]] true true false).1.shouldSaveTurnStart =
        undoDemoU.shouldSaveTurnStart) ∧
    ((fullUndoToolCall (applyTurnCalls [([[-2]], true, true)]
        (putFeatureAtSelection (markNewTurn undoDemoC) [[0]] true false
          false).1)).2 = true ∧
      GetFlattenedTileMap (fullUndoToolCall (applyTurnCalls [([[-2]], true, true)]
          (putFeatureAtSelection (markNewTurn undoDemoC) [[0]] true false
            false).1)).1 = GetFlattenedTileMap undoDemoC) :=
  ⟨claim2_turn_undo.1 undoDemoC [[0]] true false,
   claim2_turn_undo.2.1 undoDemoU [[0]] true false false rfl,
   claim2_turn_undo.2.2.1 undoDemoU [[-2]] true false,
   claim2_turn_undo.2.2.2.1 undoDemoC [[0]] true [([[-2]], true, true)] rfl
     (fun _ _ => by show (-1 : Int) ≠ -2; decide)
     (fun x y => by
       show cellBroken (fun _ _ => (-1 : Int)) x y = false
       simp [cellBroken, layerGetC, layerGet])⟩
